import Mathlib

/-!
# Verification of the instance serializer (`src/index.ts`)

A shallow embedding of the `InstanceSerializer` class.  Runtime host values
(Roblox datatypes, Lua tables) are modelled by the inductive `Val`; live
objects (`Instance`) by `Inst`; the wire tree (`SerializedInstance`) by
`SNode`.  Host capabilities that the source delegates to the engine
(`Instance.new`, `IsA`, the reflection catalog, `InsertService`, the `Enum`
namespace, property writability) are bundled in an `Env` record; each theorem
states the host facts it relies on explicitly.

Numbers are modelled as `Int`: the codec only copies numeric components, it
never computes with them, so the round-trip claims are insensitive to the
numeric carrier.
-/

set_option autoImplicit false

namespace Serializer

mutual

/-- Runtime/wire values.  The structured Roblox datatypes carry their numeric
components directly (a `NumberSequence` keypoint is `(Time, Value, Envelope)`,
a `ColorSequence` keypoint is `(Time, R, G, B)`).  Plain Lua tables are
`table` (string-keyed fields) and `arr` (array part); `vnil` is Lua `nil`
(TS `undefined`).  `udim`, `udim2`, `rect`, `brickColor` are the extra
datatypes accepted by `shouldSerializeProperty` but not encoded; `inst` is an
Instance-typed value, `fn` a function value. -/
inductive Val where
  | vnil : Val
  | vbool (b : Bool) : Val
  | vstr (s : String) : Val
  | vnum (n : Int) : Val
  | v3 (x y z : Int) : Val
  | v2 (x y : Int) : Val
  | cf (x y z r00 r01 r02 r10 r11 r12 r20 r21 r22 : Int) : Val
  | c3 (r g b : Int) : Val
  | nrange (lo hi : Int) : Val
  | nseq (ks : List (Int × Int × Int)) : Val
  | cseq (ks : List (Int × Int × Int × Int)) : Val
  | enum (etype ename : String) : Val
  | udim (a b : Int) : Val
  | udim2 (a b c d : Int) : Val
  | rect (a b c d : Int) : Val
  | brickColor (n : Int) : Val
  | inst (nm : String) : Val
  | fn : Val
  | table (fs : Fields) : Val
  | arr (xs : ValList) : Val

/-- String-keyed fields of a Lua table. -/
inductive Fields where
  | fnil : Fields
  | fcons (k : String) (v : Val) (rest : Fields) : Fields

/-- Array part of a Lua table. -/
inductive ValList where
  | lnil : ValList
  | lcons (v : Val) (rest : ValList) : ValList
end

/-- Lua-style field read: a missing field reads as `nil`. -/
def fget : Fields → String → Val
  | .fnil, _ => .vnil
  | .fcons k v rest, key => if k = key then v else fget rest key

/-- Zero-based array indexing (TS `xs[i]`); out of range reads as `nil`. -/
def lget : ValList → Nat → Val
  | .lnil, _ => .vnil
  | .lcons v _, 0 => v
  | .lcons _ rest, n + 1 => lget rest n

/-- A member descriptor of the reflection catalog (`APIMember`). -/
structure APIMember where
  name : String
  memberType : String
  tags : Option (List String)

/-- A class descriptor of the reflection catalog (`APIClass`). -/
structure APIClass where
  name : String
  members : List APIMember

/-- The host capabilities the serializer delegates to the engine.
`apiClasses` is the successfully fetched and cached API dump
(`fetchProperties`); `isA` is `Instance.IsA` on class names; `enumLookup`
models indexing `Enum[etype][ename]` (`none` means the lookup raises);
`newInstance` gives the default property bag of a freshly constructed
instance of a class (`none` means `Instance.new` raises);
`createMeshPart` models `InsertService.CreateMeshPartAsync` (`none` means it
raises); `writeOk` tells whether the host accepts a property write
(`false` means the assignment raises). -/
structure Env where
  apiClasses : List APIClass
  isA : String → String → Bool
  enumLookup : String → String → Option Val
  newInstance : String → Option (List (String × Val))
  createMeshPart : String → Option (List (String × Val))
  writeOk : String → String → Val → Bool

/-! ## Static policy sets -/

/-- `IGNORED_PROPERTIES` from the source, in source order. -/
def IGNORED_PROPERTIES : List String :=
  ["ClassName", "Name", "Parent", "RobloxLocked", "Archivable",
   "Mass", "CenterOfMass", "AssemblyCenterOfMass", "ExtentsCFrame",
   "ExtentsSize", "MeshSize", "ResizeIncrement",
   "IsLoaded", "TimeLength", "PlaybackLoudness", "CollisionFidelity",
   "RenderFidelity", "DoubleSided", "WorldPosition", "WorldOrientation",
   "WorldCFrame", "Active"]

/-- `READ_ONLY_PROPERTIES` from the source.  Declared by the source but never
consulted by any of its methods. -/
def READ_ONLY_PROPERTIES : List String :=
  ["Mass", "CenterOfMass", "AssemblyCenterOfMass", "ExtentsCFrame",
   "ExtentsSize", "MeshSize", "ResizeIncrement", "IsLoaded", "TimeLength",
   "PlaybackLoudness", "Active"]

/-- The force-include name chain at the top of `shouldSerializeProperty`,
in source order (the source lists `RotSpeed` twice). -/
def FORCE_INCLUDE : List String :=
  ["CFrame", "Position", "Orientation", "Rotation",
   "Speed", "SpreadAngle", "Rate", "RotSpeed", "Acceleration", "Drag",
   "VelocityInheritance", "Lifetime", "Size", "Transparency",
   "LightEmission", "LightInfluence", "RotSpeed"]

/-- `hasTag`: membership of a tag in an optional tag list. -/
def hasTag (tags : Option (List String)) (tag : String) : Bool :=
  match tags with
  | none => false
  | some ts => ts.contains tag

/-! ## Value kind predicates (the `typeIs`/`typeOf` dispatch) -/

/-- The value is `boolean`, `string` or `number` under `typeOf`. -/
def isPrimitive : Val → Bool
  | .vbool _ => true
  | .vstr _ => true
  | .vnum _ => true
  | _ => false

/-- The value is one of the eight structured kinds the codec encodes. -/
def isStructured : Val → Bool
  | .v3 _ _ _ => true
  | .v2 _ _ => true
  | .cf _ _ _ _ _ _ _ _ _ _ _ _ => true
  | .c3 _ _ _ => true
  | .nrange _ _ => true
  | .nseq _ => true
  | .cseq _ => true
  | .enum _ _ => true
  | _ => false

/-- A primitive or one of the eight structured kinds: the kinds for which
the codec is lossless. -/
def serializableKind (v : Val) : Bool :=
  isPrimitive v || isStructured v

/-- `shouldSerializeProperty`, following the source's test order exactly:
the force-include name chain first, then the `undefined`/function/Instance
guards, the `IGNORED_PROPERTIES` re-check, and finally the value-kind
whitelist. -/
def shouldSerializeProperty (propertyName : String) (propertyValue : Val) : Bool :=
  if FORCE_INCLUDE.contains propertyName then true
  else if propertyValue matches .vnil then false
  else if propertyValue matches .fn then false
  else if propertyValue matches .inst _ then false
  else if IGNORED_PROPERTIES.contains propertyName then false
  else
    match propertyValue with
    | .vbool _ => true
    | .vstr _ => true
    | .vnum _ => true
    | .v3 _ _ _ => true
    | .cf _ _ _ _ _ _ _ _ _ _ _ _ => true
    | .c3 _ _ _ => true
    | .v2 _ _ => true
    | .udim _ _ => true
    | .udim2 _ _ _ _ => true
    | .nrange _ _ => true
    | .rect _ _ _ _ => true
    | .brickColor _ => true
    | .nseq _ => true
    | .cseq _ => true
    | .enum _ _ => true
    | _ => false

/-! ## The value codec (`serializeProperty` / `deserializeProperty`) -/

/-- Encode one `NumberSequence` keypoint as its wire table. -/
def encodeNSKeypoint (k : Int × Int × Int) : Val :=
  .table (.fcons "Time" (.vnum k.1)
         (.fcons "Value" (.vnum k.2.1)
         (.fcons "Envelope" (.vnum k.2.2) .fnil)))

/-- Encode a list of `NumberSequence` keypoints as a wire array. -/
def encodeNSKeypoints : List (Int × Int × Int) → ValList
  | [] => .lnil
  | k :: rest => .lcons (encodeNSKeypoint k) (encodeNSKeypoints rest)

/-- Encode one `ColorSequence` keypoint as its wire table. -/
def encodeCSKeypoint (k : Int × Int × Int × Int) : Val :=
  .table (.fcons "Time" (.vnum k.1)
         (.fcons "Value" (.table (.fcons "R" (.vnum k.2.1)
                                 (.fcons "G" (.vnum k.2.2.1)
                                 (.fcons "B" (.vnum k.2.2.2) .fnil)))) .fnil))

/-- Encode a list of `ColorSequence` keypoints as a wire array. -/
def encodeCSKeypoints : List (Int × Int × Int × Int) → ValList
  | [] => .lnil
  | k :: rest => .lcons (encodeCSKeypoint k) (encodeCSKeypoints rest)

/-- `serializeProperty`: dispatch on the runtime kind in source order
(Vector3, CFrame, Color3, NumberSequence, ColorSequence, EnumItem, Vector2,
NumberRange); anything else is returned unchanged. -/
def serializeProperty : Val → Val
  | .v3 x y z =>
      .table (.fcons "_type" (.vstr "Vector3")
             (.fcons "X" (.vnum x) (.fcons "Y" (.vnum y) (.fcons "Z" (.vnum z) .fnil))))
  | .cf x y z r00 r01 r02 r10 r11 r12 r20 r21 r22 =>
      .table (.fcons "_type" (.vstr "CFrame")
             (.fcons "Position" (.arr (.lcons (.vnum x) (.lcons (.vnum y) (.lcons (.vnum z) .lnil))))
             (.fcons "Rotation" (.arr (.lcons (.vnum r00) (.lcons (.vnum r01) (.lcons (.vnum r02)
                    (.lcons (.vnum r10) (.lcons (.vnum r11) (.lcons (.vnum r12)
                    (.lcons (.vnum r20) (.lcons (.vnum r21) (.lcons (.vnum r22) .lnil)))))))))) .fnil)))
  | .c3 r g b =>
      .table (.fcons "_type" (.vstr "Color3")
             (.fcons "R" (.vnum r) (.fcons "G" (.vnum g) (.fcons "B" (.vnum b) .fnil))))
  | .nseq ks =>
      .table (.fcons "_type" (.vstr "NumberSequence")
             (.fcons "Keypoints" (.arr (encodeNSKeypoints ks)) .fnil))
  | .cseq ks =>
      .table (.fcons "_type" (.vstr "ColorSequence")
             (.fcons "Keypoints" (.arr (encodeCSKeypoints ks)) .fnil))
  | .enum etype ename =>
      .table (.fcons "_type" (.vstr "EnumItem")
             (.fcons "EnumType" (.vstr etype) (.fcons "Name" (.vstr ename) .fnil)))
  | .v2 x y =>
      .table (.fcons "_type" (.vstr "Vector2")
             (.fcons "X" (.vnum x) (.fcons "Y" (.vnum y) .fnil)))
  | .nrange lo hi =>
      .table (.fcons "_type" (.vstr "NumberRange")
             (.fcons "Min" (.vnum lo) (.fcons "Max" (.vnum hi) .fnil)))
  | v => v

/-- Read a wire field as a number.  A missing or non-numeric component makes
the host datatype constructor raise, which `deserializeProperty` propagates
to its caller (spec 4.1: a known tag with malformed field shape signals a
decode error). -/
def asNum : Val → Except String Int
  | .vnum n => .ok n
  | _ => .error "expected a number"

/-- Read a wire field as a string (the `Enum[...]` index). -/
def asStr : Val → Except String String
  | .vstr s => .ok s
  | _ => .error "expected a string"

/-- Read a wire field as an array. -/
def asArr : Val → Except String ValList
  | .arr xs => .ok xs
  | _ => .error "expected an array"

/-- Decode the keypoint array of a `NumberSequence` wire value. -/
def decodeNSKeypoints : ValList → Except String (List (Int × Int × Int))
  | .lnil => .ok []
  | .lcons e rest =>
    match e with
    | .table fs => do
      let t ← asNum (fget fs "Time")
      let v ← asNum (fget fs "Value")
      let en ← asNum (fget fs "Envelope")
      let tail ← decodeNSKeypoints rest
      .ok ((t, v, en) :: tail)
    | _ => .error "expected a keypoint table"

/-- Decode the keypoint array of a `ColorSequence` wire value. -/
def decodeCSKeypoints : ValList → Except String (List (Int × Int × Int × Int))
  | .lnil => .ok []
  | .lcons e rest =>
    match e with
    | .table fs => do
      let t ← asNum (fget fs "Time")
      match fget fs "Value" with
      | .table cfs => do
        let r ← asNum (fget cfs "R")
        let g ← asNum (fget cfs "G")
        let b ← asNum (fget cfs "B")
        let tail ← decodeCSKeypoints rest
        .ok ((t, r, g, b) :: tail)
      | _ => .error "expected a color table"
    | _ => .error "expected a keypoint table"

/-- `deserializeProperty`: a table whose `_type` field is non-`nil`
dispatches on that tag; the eight known tags rebuild the host datatype
(`none` from `enumLookup` models the raising `Enum[etype][ename]` index);
an unknown tag, a non-string tag, a table without `_type`, and every
non-table value decode to themselves. -/
def deserializeProperty (env : Env) (value : Val) : Except String Val :=
  match value with
  | .table fs =>
    match fget fs "_type" with
    | .vnil => .ok value
    | .vstr tag =>
      match tag with
      | "Vector3" => do
        let x ← asNum (fget fs "X")
        let y ← asNum (fget fs "Y")
        let z ← asNum (fget fs "Z")
        .ok (.v3 x y z)
      | "CFrame" => do
        let p ← asArr (fget fs "Position")
        let r ← asArr (fget fs "Rotation")
        let x ← asNum (lget p 0)
        let y ← asNum (lget p 1)
        let z ← asNum (lget p 2)
        let r00 ← asNum (lget r 0)
        let r01 ← asNum (lget r 1)
        let r02 ← asNum (lget r 2)
        let r10 ← asNum (lget r 3)
        let r11 ← asNum (lget r 4)
        let r12 ← asNum (lget r 5)
        let r20 ← asNum (lget r 6)
        let r21 ← asNum (lget r 7)
        let r22 ← asNum (lget r 8)
        .ok (.cf x y z r00 r01 r02 r10 r11 r12 r20 r21 r22)
      | "Color3" => do
        let r ← asNum (fget fs "R")
        let g ← asNum (fget fs "G")
        let b ← asNum (fget fs "B")
        .ok (.c3 r g b)
      | "NumberSequence" => do
        let kps ← asArr (fget fs "Keypoints")
        let ks ← decodeNSKeypoints kps
        .ok (.nseq ks)
      | "ColorSequence" => do
        let kps ← asArr (fget fs "Keypoints")
        let ks ← decodeCSKeypoints kps
        .ok (.cseq ks)
      | "EnumItem" => do
        let etype ← asStr (fget fs "EnumType")
        let ename ← asStr (fget fs "Name")
        match env.enumLookup etype ename with
        | some item => .ok item
        | none => .error "enum lookup failed"
      | "Vector2" => do
        let x ← asNum (fget fs "X")
        let y ← asNum (fget fs "Y")
        .ok (.v2 x y)
      | "NumberRange" => do
        let lo ← asNum (fget fs "Min")
        let hi ← asNum (fget fs "Max")
        .ok (.nrange lo hi)
      | _ => .ok value
    | _ => .ok value
  | _ => .ok value

/-! ## Association-list maps

Both the `Map` built by `getInstanceProperties` and the `Properties` table of
a serialized node are string-keyed maps; we model them as association lists
where `setA` overwrites an existing key in place and appends a fresh key. -/

/-- First-match lookup in an association list. -/
def lookupA : List (String × Val) → String → Option Val
  | [], _ => none
  | (k', v) :: rest, k => if k' = k then some v else lookupA rest k

/-- Map update: overwrite the entry for `k` in place, or append it. -/
def setA : List (String × Val) → String → Val → List (String × Val)
  | [], k, v => [(k, v)]
  | (k', v') :: rest, k, v =>
    if k' = k then (k, v) :: rest else (k', v') :: setA rest k v

/-- Insert every pair of `ps` (left to right) into the map `m`. -/
def insertAll (m : List (String × Val)) (ps : List (String × Val)) : List (String × Val) :=
  ps.foldl (fun acc p => setA acc p.1 p.2) m

/-- The keys of the map are pairwise distinct. -/
def NodupKeys (m : List (String × Val)) : Prop :=
  (m.map Prod.fst).Nodup

/-! ## Live objects and wire nodes -/

mutual

/-- A live host object: runtime class name, name, property bag (reads of
properties the host would raise on are simply absent from the bag), ordered
children, and the archivable flag. -/
inductive Inst where
  | mk (className name : String) (props : List (String × Val))
       (children : InstList) (archivable : Bool) : Inst

/-- An ordered list of live objects (the host's child order). -/
inductive InstList where
  | nil : InstList
  | cons (head : Inst) (tail : InstList) : InstList

end

def Inst.className : Inst → String
  | .mk c _ _ _ _ => c

def Inst.name : Inst → String
  | .mk _ n _ _ _ => n

def Inst.props : Inst → List (String × Val)
  | .mk _ _ ps _ _ => ps

def Inst.children : Inst → InstList
  | .mk _ _ _ ch _ => ch

def Inst.archivable : Inst → Bool
  | .mk _ _ _ _ a => a

/-- Reading `instance[name]`: `none` models a raising read (the member does
not exist or is capability-restricted), which `getInstanceProperties`
catches and skips. -/
def Inst.getProp (i : Inst) (k : String) : Option Val :=
  lookupA i.props k

/-- Writing `instance[name] = v` on the host object. -/
def Inst.setProp : Inst → String → Val → Inst
  | .mk c n ps ch a, k, v => .mk c n (setA ps k v) ch a

def InstList.length : InstList → Nat
  | .nil => 0
  | .cons _ t => t.length + 1

def InstList.append : InstList → InstList → InstList
  | .nil, l => l
  | .cons h t, l => .cons h (t.append l)

/-- Append reconstructed children under a parent (`child.Parent = instance`
in document order). -/
def Inst.appendChildren : Inst → InstList → Inst
  | .mk c n ps ch a, cs => .mk c n ps (ch.append cs) a

mutual

/-- A wire-format node (`SerializedInstance`). -/
inductive SNode where
  | mk (className name : String) (properties : List (String × Val))
       (children : SNodeList) (meshId : Option String) : SNode

/-- An ordered list of wire nodes. -/
inductive SNodeList where
  | nil : SNodeList
  | cons (head : SNode) (tail : SNodeList) : SNodeList

end

def SNode.className : SNode → String
  | .mk c _ _ _ _ => c

def SNode.name : SNode → String
  | .mk _ n _ _ _ => n

def SNode.properties : SNode → List (String × Val)
  | .mk _ _ ps _ _ => ps

def SNode.children : SNode → SNodeList
  | .mk _ _ _ ch _ => ch

def SNode.meshId : SNode → Option String
  | .mk _ _ _ _ m => m

def SNodeList.length : SNodeList → Nat
  | .nil => 0
  | .cons _ t => t.length + 1

/-! ## Attribute discovery (`getInstanceProperties`) -/

/-- The tag test of `getInstanceProperties`: tagged `Deprecated`, `Hidden`,
`NotScriptable` or `ReadOnly`. -/
def excludedByTags (m : APIMember) : Bool :=
  hasTag m.tags "Deprecated" || hasTag m.tags "Hidden" ||
  hasTag m.tags "NotScriptable" || hasTag m.tags "ReadOnly"

/-- The body of the member loop of `getInstanceProperties`: member-kind
check, static ignore set, tag set, guarded read, inclusion test, encode,
`Map.set`. -/
def gipMemberStep (_env : Env) (i : Inst) (acc : List (String × Val))
    (m : APIMember) : List (String × Val) :=
  if m.memberType = "Property" then
    if IGNORED_PROPERTIES.contains m.name then acc
    else if excludedByTags m then acc
    else
      match i.getProp m.name with
      | none => acc
      | some v =>
        if shouldSerializeProperty m.name v then setA acc m.name (serializeProperty v)
        else acc
  else acc

/-- The body of the class loop of `getInstanceProperties`: skip descriptors
whose class name the object is not an `IsA` of. -/
def gipClassStep (env : Env) (i : Inst) (acc : List (String × Val))
    (c : APIClass) : List (String × Val) :=
  if env.isA i.className c.name then c.members.foldl (gipMemberStep env i) acc else acc

/-- `getInstanceProperties`: fold the catalog into a fresh map.  The catalog
itself is `env.apiClasses` (the cached result of a successful
`fetchProperties`). -/
def getInstanceProperties (env : Env) (i : Inst) : List (String × Val) :=
  env.apiClasses.foldl (gipClassStep env i) []

/-! ## The serialize pass (`serializeInstance`) -/

mutual

/-- `serializeInstance`: emit class name and name, the `MeshId` field for
`IsA "MeshPart"` objects (the host guarantees `MeshId` is a string
property on such objects), the duplicated attachment discovery pass, the
general discovery pass, and the archivable children in order. -/
def serializeInstance (env : Env) : Inst → SNode
  | .mk c n ps ch arch =>
    let meshId : Option String :=
      if env.isA c "MeshPart" then
        match lookupA ps "MeshId" with
        | some (.vstr s) => some s
        | _ => none
      else none
    let d1 : List (String × Val) :=
      if env.isA c "Attachment" then
        insertAll [] (getInstanceProperties env (.mk c n ps ch arch))
      else []
    let d2 := insertAll d1 (getInstanceProperties env (.mk c n ps ch arch))
    .mk c n d2 (serializeForest env ch) meshId

/-- The child loop of `serializeInstance`: archivable children are
serialized in host order, non-archivable children are pruned. -/
def serializeForest (env : Env) : InstList → SNodeList
  | .nil => .nil
  | .cons c t =>
    if c.archivable then .cons (serializeInstance env c) (serializeForest env t)
    else serializeForest env t

end

/-! ## The deserialize pass (`deserializeInstance`) -/

/-- One property write of the attachment-branch loop (source lines 191-197):
decode, then assign; a decode or write failure is caught and skipped. -/
def writeStepNoSkip (env : Env) (st : Inst) (p : String × Val) : Inst :=
  match deserializeProperty env p.2 with
  | .ok dv => if env.writeOk st.className p.1 dv then st.setProp p.1 dv else st
  | .error _ => st

/-- The attachment-branch property loop. -/
def writePropsNoSkip (env : Env) (st : Inst) (ps : List (String × Val)) : Inst :=
  ps.foldl (writeStepNoSkip env) st

/-- One property write of the general loop (source lines 219-226): skip the
`MeshId` key when the constructed object `IsA "MeshPart"`, otherwise decode
and assign; a decode or write failure is caught and skipped. -/
def writeStepSkip (env : Env) (st : Inst) (p : String × Val) : Inst :=
  if env.isA st.className "MeshPart" = true ∧ p.1 = "MeshId" then st
  else
    match deserializeProperty env p.2 with
    | .ok dv => if env.writeOk st.className p.1 dv then st.setProp p.1 dv else st
    | .error _ => st

/-- The general property loop of `deserializeInstance`. -/
def writePropsSkip (env : Env) (st : Inst) (ps : List (String × Val)) : Inst :=
  ps.foldl (writeStepSkip env) st

/-- The construction step of `deserializeInstance` (source lines 184-216):
the attachment branch (construct, set name, first property loop), the
mesh branch (guarded by `ClassName === "MeshPart" && data.MeshId`, where
TS truthiness excludes the empty string; importer failure falls back to
generic construction), and the generic branch.  A raising `Instance.new`
is not caught and propagates. -/
def constructBase (env : Env) (d : SNode) : Except String Inst :=
  match d with
  | .mk c n props _ meshId =>
    if c = "Attachment" then
      match env.newInstance "Attachment" with
      | some dps => .ok (writePropsNoSkip env (.mk "Attachment" n dps .nil true) props)
      | none => .error "Instance.new failed"
    else
      match meshId with
      | some s =>
        if c = "MeshPart" ∧ s ≠ "" then
          match env.createMeshPart s with
          | some mps => .ok (.mk "MeshPart" n mps .nil true)
          | none =>
            match env.newInstance c with
            | some dps => .ok (.mk c n dps .nil true)
            | none => .error "Instance.new failed"
        else
          match env.newInstance c with
          | some dps => .ok (.mk c n dps .nil true)
          | none => .error "Instance.new failed"
      | none =>
        match env.newInstance c with
        | some dps => .ok (.mk c n dps .nil true)
        | none => .error "Instance.new failed"

mutual

/-- `deserializeInstance`: construct the node (attachment / mesh / generic
branch), run the general property loop, then reconstruct and attach every
child in order.  A child failure propagates; property failures never do. -/
def deserializeInstance (env : Env) : SNode → Except String Inst
  | .mk c n props ch meshId => do
    let base ← constructBase env (.mk c n props ch meshId)
    let withProps := writePropsSkip env base props
    let cs ← deserializeForest env ch
    .ok (withProps.appendChildren cs)

/-- The child loop of `deserializeInstance`. -/
def deserializeForest (env : Env) : SNodeList → Except String InstList
  | .nil => .ok .nil
  | .cons d t => do
    let i ← deserializeInstance env d
    let rest ← deserializeForest env t
    .ok (.cons i rest)

end

/-! ## Association-list lemmas -/

theorem lookupA_setA_self (m : List (String × Val)) (k : String) (v : Val) :
    lookupA (setA m k v) k = some v := by
  induction m with
  | nil => simp [setA, lookupA]
  | cons p rest ih =>
    obtain ⟨k', v'⟩ := p
    by_cases h : k' = k
    · simp [setA, h, lookupA]
    · simp [setA, h, lookupA, ih]

theorem lookupA_setA_ne (m : List (String × Val)) (k' k : String) (v : Val)
    (h : k' ≠ k) : lookupA (setA m k' v) k = lookupA m k := by
  induction m with
  | nil => simp [setA, lookupA, h]
  | cons p rest ih =>
    obtain ⟨k1, v1⟩ := p
    by_cases hp : k1 = k'
    · have hk : k1 ≠ k := by rw [hp]; exact h
      simp [setA, hp, lookupA, h, hk]
    · simp [setA, hp, lookupA, ih]

theorem mem_of_lookupA (m : List (String × Val)) (k : String) (v : Val)
    (h : lookupA m k = some v) : (k, v) ∈ m := by
  induction m with
  | nil => simp [lookupA] at h
  | cons p rest ih =>
    obtain ⟨k', v'⟩ := p
    by_cases hp : k' = k
    · simp [lookupA, hp] at h
      subst hp; subst h
      exact List.mem_cons_self _ _
    · simp [lookupA, hp] at h
      exact List.mem_cons_of_mem _ (ih h)

theorem lookupA_eq_none_of_not_mem (m : List (String × Val)) (k : String)
    (h : k ∉ m.map Prod.fst) : lookupA m k = none := by
  induction m with
  | nil => simp [lookupA]
  | cons p rest ih =>
    obtain ⟨k', v'⟩ := p
    simp only [List.map_cons, List.mem_cons, not_or] at h
    have hne : k' ≠ k := fun he => h.1 he.symm
    simp [lookupA, hne, ih h.2]

theorem keys_setA_of_mem (m : List (String × Val)) (k : String) (v : Val)
    (h : k ∈ m.map Prod.fst) :
    (setA m k v).map Prod.fst = m.map Prod.fst := by
  induction m with
  | nil => simp at h
  | cons p rest ih =>
    obtain ⟨k', v'⟩ := p
    by_cases hp : k' = k
    · simp [setA, hp]
    · simp only [List.map_cons, List.mem_cons] at h
      rcases h with h | h
      · exact absurd h.symm hp
      · simp [setA, hp, ih h]

theorem setA_of_not_mem (m : List (String × Val)) (k : String) (v : Val)
    (h : k ∉ m.map Prod.fst) : setA m k v = m ++ [(k, v)] := by
  induction m with
  | nil => simp [setA]
  | cons p rest ih =>
    obtain ⟨k', v'⟩ := p
    simp only [List.map_cons, List.mem_cons, not_or] at h
    have hne : k' ≠ k := fun he => h.1 he.symm
    simp [setA, hne, ih h.2]

theorem nodupKeys_setA (m : List (String × Val)) (k : String) (v : Val)
    (h : NodupKeys m) : NodupKeys (setA m k v) := by
  by_cases hk : k ∈ m.map Prod.fst
  · unfold NodupKeys
    rw [keys_setA_of_mem m k v hk]
    exact h
  · unfold NodupKeys
    rw [setA_of_not_mem m k v hk]
    unfold NodupKeys at h
    rw [List.map_append, List.nodup_append]
    exact ⟨h, by simp, by simpa using fun hx => hk hx⟩

theorem setA_eq_of_mem (m : List (String × Val)) (k : String) (v : Val)
    (hn : NodupKeys m) (h : (k, v) ∈ m) : setA m k v = m := by
  induction m with
  | nil => simp at h
  | cons p rest ih =>
    obtain ⟨k', v'⟩ := p
    simp only [NodupKeys, List.map_cons, List.nodup_cons] at hn
    rcases List.mem_cons.mp h with h | h
    · injection h with h1 h2
      subst h1
      subst h2
      simp [setA]
    · have hne : k' ≠ k := by
        intro he
        exact hn.1 (he ▸ (List.mem_map_of_mem Prod.fst h))
      simp [setA, hne, ih hn.2 h]

theorem insertAll_of_subset (m : List (String × Val)) (ps : List (String × Val))
    (hn : NodupKeys m) (h : ∀ p ∈ ps, p ∈ m) : insertAll m ps = m := by
  induction ps with
  | nil => rfl
  | cons p rest ih =>
    have h1 : setA m p.1 p.2 = m := setA_eq_of_mem m p.1 p.2 hn (h p (by simp))
    show insertAll (setA m p.1 p.2) rest = m
    rw [h1]
    exact ih (fun q hq => h q (by simp [hq]))

theorem insertAll_disjoint (ps : List (String × Val)) :
    ∀ m : List (String × Val), (∀ p ∈ ps, p.1 ∉ m.map Prod.fst) → NodupKeys ps →
    insertAll m ps = m ++ ps := by
  induction ps with
  | nil => intro m _ _; simp [insertAll]
  | cons p rest ih =>
    intro m hdisj hnd
    obtain ⟨k, v⟩ := p
    simp only [NodupKeys, List.map_cons, List.nodup_cons] at hnd
    show insertAll (setA m k v) rest = m ++ (k, v) :: rest
    rw [setA_of_not_mem m k v (hdisj (k, v) (by simp))]
    have hrest : ∀ q ∈ rest, q.1 ∉ (m ++ [(k, v)]).map Prod.fst := by
      intro q hq
      rw [List.map_append, List.mem_append]
      rintro (hx | hx)
      · exact hdisj q (by simp [hq]) hx
      · simp at hx
        exact hnd.1 (hx ▸ (List.mem_map_of_mem Prod.fst hq))
    have := ih (m ++ [(k, v)]) hrest hnd.2
    simpa using this

theorem insertAll_nil (ps : List (String × Val)) (hn : NodupKeys ps) :
    insertAll [] ps = ps := by
  simpa using insertAll_disjoint ps [] (by simp) hn

theorem nodupKeys_insertAll (m : List (String × Val)) (ps : List (String × Val))
    (hn : NodupKeys m) : NodupKeys (insertAll m ps) := by
  induction ps generalizing m with
  | nil => exact hn
  | cons p rest ih =>
    exact ih (setA m p.1 p.2) (nodupKeys_setA m p.1 p.2 hn)

/-- Invariance of a predicate along a left fold. -/
theorem foldl_invariant {α : Type} {β : Type} (P : α → Prop) (f : α → β → α)
    (h : ∀ a b, P a → P (f a b)) :
    ∀ (l : List β) (a : α), P a → P (l.foldl f a) := by
  intro l
  induction l with
  | nil => intro a ha; exact ha
  | cons b t ih => intro a ha; exact ih (f a b) (h a b ha)

/-! ## Codec lemmas -/

theorem serializeProperty_of_not_structured (v : Val) (h : isStructured v = false) :
    serializeProperty v = v := by
  cases v <;> simp [isStructured] at h <;> rfl

theorem serializeProperty_structured_table (v : Val) (h : isStructured v = true) :
    ∃ fs, serializeProperty v = .table fs := by
  cases v <;> simp [isStructured] at h <;> exact ⟨_, rfl⟩

theorem decode_encode_ns (ks : List (Int × Int × Int)) :
    decodeNSKeypoints (encodeNSKeypoints ks) = .ok ks := by
  induction ks with
  | nil => rfl
  | cons k rest ih =>
    obtain ⟨t, v, e⟩ := k
    simp [encodeNSKeypoints, encodeNSKeypoint, decodeNSKeypoints, fget, asNum, ih]
    rfl

theorem decode_encode_cs (ks : List (Int × Int × Int × Int)) :
    decodeCSKeypoints (encodeCSKeypoints ks) = .ok ks := by
  induction ks with
  | nil => rfl
  | cons k rest ih =>
    obtain ⟨t, r, g, b⟩ := k
    simp [encodeCSKeypoints, encodeCSKeypoint, decodeCSKeypoints, fget, asNum, ih]
    rfl

/-- Codec round trip for every serializable kind: primitives pass through
both directions; each of the eight structured kinds is rebuilt
component-for-component, using the host enum namespace for `EnumItem`. -/
theorem decode_encode (env : Env) (v : Val)
    (hkind : serializableKind v = true)
    (henum : ∀ t n, v = .enum t n → env.enumLookup t n = some (.enum t n)) :
    deserializeProperty env (serializeProperty v) = .ok v := by
  cases v with
  | vbool b => rfl
  | vstr s => rfl
  | vnum n => rfl
  | v3 x y z => rfl
  | v2 x y => rfl
  | cf x y z r00 r01 r02 r10 r11 r12 r20 r21 r22 => rfl
  | c3 r g b => rfl
  | nrange lo hi => rfl
  | nseq ks =>
    simp [serializeProperty, deserializeProperty, fget, asArr, decode_encode_ns,
      bind, Except.bind]
  | cseq ks =>
    simp [serializeProperty, deserializeProperty, fget, asArr, decode_encode_cs,
      bind, Except.bind]
  | enum t n =>
    simp [serializeProperty, deserializeProperty, fget, asStr, henum t n rfl,
      bind, Except.bind]
  | vnil => simp [serializableKind, isPrimitive, isStructured] at hkind
  | udim a b => simp [serializableKind, isPrimitive, isStructured] at hkind
  | udim2 a b c d => simp [serializableKind, isPrimitive, isStructured] at hkind
  | rect a b c d => simp [serializableKind, isPrimitive, isStructured] at hkind
  | brickColor n => simp [serializableKind, isPrimitive, isStructured] at hkind
  | inst nm => simp [serializableKind, isPrimitive, isStructured] at hkind
  | fn => simp [serializableKind, isPrimitive, isStructured] at hkind
  | table fs => simp [serializableKind, isPrimitive, isStructured] at hkind
  | arr xs => simp [serializableKind, isPrimitive, isStructured] at hkind

/-! ## Discovery lemmas -/

theorem nodupKeys_gipMemberStep (env : Env) (i : Inst)
    (acc : List (String × Val)) (m : APIMember) (h : NodupKeys acc) :
    NodupKeys (gipMemberStep env i acc m) := by
  unfold gipMemberStep
  split
  · split
    · exact h
    · split
      · exact h
      · split
        · exact h
        · split
          · exact nodupKeys_setA _ _ _ h
          · exact h
  · exact h

theorem nodupKeys_gipClassStep (env : Env) (i : Inst)
    (acc : List (String × Val)) (c : APIClass) (h : NodupKeys acc) :
    NodupKeys (gipClassStep env i acc c) := by
  unfold gipClassStep
  split
  · exact foldl_invariant NodupKeys (gipMemberStep env i)
      (fun a m ha => nodupKeys_gipMemberStep env i a m ha) c.members acc h
  · exact h

/-- The map built by `getInstanceProperties` has pairwise-distinct keys. -/
theorem nodupKeys_gip (env : Env) (i : Inst) :
    NodupKeys (getInstanceProperties env i) :=
  foldl_invariant NodupKeys (gipClassStep env i)
    (fun a c ha => nodupKeys_gipClassStep env i a c ha) env.apiClasses []
    (by simp [NodupKeys])

/-- Every entry of the discovered map is the encoding of a value actually
read from the object that passed the inclusion test. -/
theorem gip_lookup_spec (env : Env) (i : Inst) (k : String) (w : Val)
    (h : lookupA (getInstanceProperties env i) k = some w) :
    ∃ raw, i.getProp k = some raw ∧ shouldSerializeProperty k raw = true ∧
      w = serializeProperty raw := by
  let P : List (String × Val) → Prop := fun acc =>
    ∀ k w, lookupA acc k = some w →
      ∃ raw, i.getProp k = some raw ∧ shouldSerializeProperty k raw = true ∧
        w = serializeProperty raw
  have hmember : ∀ acc m, P acc → P (gipMemberStep env i acc m) := by
    intro acc m hP k' w' hl
    unfold gipMemberStep at hl
    split at hl
    · split at hl
      · exact hP k' w' hl
      · split at hl
        · exact hP k' w' hl
        · split at hl
          · exact hP k' w' hl
          · rename_i raw hread
            split at hl
            · rename_i hshould
              by_cases hk : m.name = k'
              · rw [hk, lookupA_setA_self] at hl
                exact ⟨raw, hk ▸ hread, hk ▸ hshould, (Option.some_injective _ hl).symm⟩
              · rw [lookupA_setA_ne _ _ _ _ hk] at hl
                exact hP k' w' hl
            · exact hP k' w' hl
    · exact hP k' w' hl
  have hclass : ∀ acc c, P acc → P (gipClassStep env i acc c) := by
    intro acc c hP
    unfold gipClassStep
    split
    · exact foldl_invariant P (gipMemberStep env i) hmember c.members acc hP
    · exact hP
  have hnil : P [] := by intro k' w' hl; simp [lookupA] at hl
  exact foldl_invariant P (gipClassStep env i) hclass env.apiClasses [] hnil k w h

/-- The `Properties` map a serialized node carries is exactly the discovered
map: the duplicated attachment pass re-inserts the same key/value pairs. -/
theorem serializeInstance_properties (env : Env) (i : Inst) :
    (serializeInstance env i).properties = getInstanceProperties env i := by
  obtain ⟨c, n, ps, ch, arch⟩ := i
  show (SNode.properties (serializeInstance env (.mk c n ps ch arch))) = _
  rw [serializeInstance]
  simp only [SNode.properties]
  have hn : NodupKeys (getInstanceProperties env (Inst.mk c n ps ch arch)) :=
    nodupKeys_gip env (Inst.mk c n ps ch arch)
  have hins : insertAll [] (getInstanceProperties env (Inst.mk c n ps ch arch)) =
      getInstanceProperties env (Inst.mk c n ps ch arch) := insertAll_nil _ hn
  split
  · rw [hins]
    exact insertAll_of_subset _ _ hn (fun p hp => hp)
  · rw [hins]

/-! ## Write-loop lemmas -/

/-- Both property-write loops take steps that either leave the object alone
or write one key. -/
def WriteLike (f : Inst → String × Val → Inst) : Prop :=
  ∀ st p, f st p = st ∨ ∃ dv, f st p = st.setProp p.1 dv

theorem writeLike_skip (env : Env) : WriteLike (writeStepSkip env) := by
  intro st p
  unfold writeStepSkip
  split
  · exact Or.inl rfl
  · split
    · split
      · exact Or.inr ⟨_, rfl⟩
      · exact Or.inl rfl
    · exact Or.inl rfl

theorem writeLike_noSkip (env : Env) : WriteLike (writeStepNoSkip env) := by
  intro st p
  unfold writeStepNoSkip
  split
  · split
    · exact Or.inr ⟨_, rfl⟩
    · exact Or.inl rfl
  · exact Or.inl rfl

theorem setProp_className (st : Inst) (k : String) (v : Val) :
    (st.setProp k v).className = st.className := by
  obtain ⟨c, n, ps, ch, a⟩ := st; rfl

theorem setProp_name (st : Inst) (k : String) (v : Val) :
    (st.setProp k v).name = st.name := by
  obtain ⟨c, n, ps, ch, a⟩ := st; rfl

theorem setProp_children (st : Inst) (k : String) (v : Val) :
    (st.setProp k v).children = st.children := by
  obtain ⟨c, n, ps, ch, a⟩ := st; rfl

theorem setProp_archivable (st : Inst) (k : String) (v : Val) :
    (st.setProp k v).archivable = st.archivable := by
  obtain ⟨c, n, ps, ch, a⟩ := st; rfl

theorem getProp_setProp_self (st : Inst) (k : String) (v : Val) :
    (st.setProp k v).getProp k = some v := by
  obtain ⟨c, n, ps, ch, a⟩ := st
  exact lookupA_setA_self ps k v

theorem getProp_setProp_ne (st : Inst) (k' k : String) (v : Val) (h : k' ≠ k) :
    (st.setProp k' v).getProp k = st.getProp k := by
  obtain ⟨c, n, ps, ch, a⟩ := st
  exact lookupA_setA_ne ps k' k v h

theorem writeStep_className {f : Inst → String × Val → Inst} (hf : WriteLike f)
    (st : Inst) (p : String × Val) : (f st p).className = st.className := by
  rcases hf st p with h | ⟨dv, h⟩
  · rw [h]
  · rw [h]; exact setProp_className st p.1 dv

theorem writeFold_className {f : Inst → String × Val → Inst} (hf : WriteLike f)
    (ps : List (String × Val)) :
    ∀ st : Inst, (ps.foldl f st).className = st.className := by
  induction ps with
  | nil => intro st; rfl
  | cons p rest ih =>
    intro st
    rw [List.foldl_cons, ih (f st p), writeStep_className hf st p]

theorem writeFold_name {f : Inst → String × Val → Inst} (hf : WriteLike f)
    (ps : List (String × Val)) :
    ∀ st : Inst, (ps.foldl f st).name = st.name := by
  induction ps with
  | nil => intro st; rfl
  | cons p rest ih =>
    intro st
    rw [List.foldl_cons, ih (f st p)]
    rcases hf st p with h | ⟨dv, h⟩
    · rw [h]
    · rw [h]; exact setProp_name st p.1 dv

theorem writeFold_children {f : Inst → String × Val → Inst} (hf : WriteLike f)
    (ps : List (String × Val)) :
    ∀ st : Inst, (ps.foldl f st).children = st.children := by
  induction ps with
  | nil => intro st; rfl
  | cons p rest ih =>
    intro st
    rw [List.foldl_cons, ih (f st p)]
    rcases hf st p with h | ⟨dv, h⟩
    · rw [h]
    · rw [h]; exact setProp_children st p.1 dv

theorem writeFold_archivable {f : Inst → String × Val → Inst} (hf : WriteLike f)
    (ps : List (String × Val)) :
    ∀ st : Inst, (ps.foldl f st).archivable = st.archivable := by
  induction ps with
  | nil => intro st; rfl
  | cons p rest ih =>
    intro st
    rw [List.foldl_cons, ih (f st p)]
    rcases hf st p with h | ⟨dv, h⟩
    · rw [h]
    · rw [h]; exact setProp_archivable st p.1 dv

theorem writeFold_getProp_not_mem {f : Inst → String × Val → Inst}
    (hf : WriteLike f) (ps : List (String × Val)) (k : String)
    (hk : k ∉ ps.map Prod.fst) :
    ∀ st : Inst, (ps.foldl f st).getProp k = st.getProp k := by
  induction ps with
  | nil => intro st; rfl
  | cons p rest ih =>
    intro st
    simp only [List.map_cons, List.mem_cons, not_or] at hk
    rw [List.foldl_cons, ih hk.2 (f st p)]
    rcases hf st p with h | ⟨dv, h⟩
    · rw [h]
    · rw [h]; exact getProp_setProp_ne st p.1 k dv (fun he => hk.1 he.symm)

theorem writePropsSkip_className (env : Env) (st : Inst) (ps : List (String × Val)) :
    (writePropsSkip env st ps).className = st.className :=
  writeFold_className (writeLike_skip env) ps st

theorem writePropsSkip_name (env : Env) (st : Inst) (ps : List (String × Val)) :
    (writePropsSkip env st ps).name = st.name :=
  writeFold_name (writeLike_skip env) ps st

theorem writePropsSkip_children (env : Env) (st : Inst) (ps : List (String × Val)) :
    (writePropsSkip env st ps).children = st.children :=
  writeFold_children (writeLike_skip env) ps st

/-- A successful decode-and-write of `(k, v)` in the general loop lands:
afterwards the object holds the decoded value under `k`. -/
theorem writePropsSkip_hit (env : Env) (ps : List (String × Val)) (k : String)
    (v dv : Val) (hnd : NodupKeys ps) (hmem : (k, v) ∈ ps) :
    ∀ st : Inst,
      ¬(env.isA st.className "MeshPart" = true ∧ k = "MeshId") →
      deserializeProperty env v = .ok dv →
      env.writeOk st.className k dv = true →
      (writePropsSkip env st ps).getProp k = some dv := by
  induction ps with
  | nil => simp at hmem
  | cons p rest ih =>
    intro st hskip hdec hwr
    simp only [NodupKeys, List.map_cons, List.nodup_cons] at hnd
    rcases List.mem_cons.mp hmem with h | h
    · have hp1 : p.1 = k := by rw [← h]
      have hp2 : p.2 = v := by rw [← h]
      have hknotin : k ∉ rest.map Prod.fst := hp1 ▸ hnd.1
      show (rest.foldl (writeStepSkip env) (writeStepSkip env st p)).getProp k = some dv
      rw [writeFold_getProp_not_mem (writeLike_skip env) rest k hknotin]
      unfold writeStepSkip
      rw [hp1, hp2]
      rw [if_neg hskip, hdec]
      show (if env.writeOk st.className k dv = true then st.setProp k dv else st).getProp k
        = some dv
      rw [if_pos hwr]
      exact getProp_setProp_self st k dv
    · have hcn : (writeStepSkip env st p).className = st.className :=
        writeStep_className (writeLike_skip env) st p
      show (rest.foldl (writeStepSkip env) (writeStepSkip env st p)).getProp k = some dv
      exact ih hnd.2 h (writeStepSkip env st p) (hcn ▸ hskip) hdec (hcn ▸ hwr)

/-- A decode failure (or a write the host rejects) of `(k, v)` leaves the
attribute at its pre-loop value: the failing attribute is skipped. -/
theorem writePropsSkip_miss (env : Env) (ps : List (String × Val)) (k : String)
    (v : Val) (hnd : NodupKeys ps) (hmem : (k, v) ∈ ps) :
    ∀ st : Inst,
      (∀ dv, deserializeProperty env v = .ok dv →
        env.writeOk st.className k dv = false) →
      (writePropsSkip env st ps).getProp k = st.getProp k := by
  induction ps with
  | nil => simp at hmem
  | cons p rest ih =>
    intro st hfail
    simp only [NodupKeys, List.map_cons, List.nodup_cons] at hnd
    rcases List.mem_cons.mp hmem with h | h
    · have hp1 : p.1 = k := by rw [← h]
      have hp2 : p.2 = v := by rw [← h]
      have hknotin : k ∉ rest.map Prod.fst := hp1 ▸ hnd.1
      show (rest.foldl (writeStepSkip env) (writeStepSkip env st p)).getProp k = st.getProp k
      rw [writeFold_getProp_not_mem (writeLike_skip env) rest k hknotin]
      unfold writeStepSkip
      rw [hp1, hp2]
      split
      · rfl
      · split
        · rename_i dv hdec
          rw [hfail dv hdec]
          simp
        · rfl
    · have hcn : (writeStepSkip env st p).className = st.className :=
        writeStep_className (writeLike_skip env) st p
      have hne : p.1 ≠ k := by
        intro he
        exact (he ▸ hnd.1) (List.mem_map_of_mem Prod.fst h)
      show (writePropsSkip env (writeStepSkip env st p) rest).getProp k = st.getProp k
      rw [ih hnd.2 h (writeStepSkip env st p) (hcn ▸ hfail)]
      rcases writeLike_skip env st p with he | ⟨dv, he⟩
      · rw [he]
      · rw [he]; exact getProp_setProp_ne st p.1 k dv hne

/-- On an object that `IsA "MeshPart"`, the general loop never writes the
`MeshId` key. -/
theorem writePropsSkip_meshId (env : Env) (ps : List (String × Val)) :
    ∀ st : Inst, env.isA st.className "MeshPart" = true →
      (writePropsSkip env st ps).getProp "MeshId" = st.getProp "MeshId" := by
  induction ps with
  | nil => intro st _; rfl
  | cons p rest ih =>
    intro st hmesh
    have hcn : (writeStepSkip env st p).className = st.className :=
      writeStep_className (writeLike_skip env) st p
    show (writePropsSkip env (writeStepSkip env st p) rest).getProp "MeshId" =
      st.getProp "MeshId"
    rw [ih (writeStepSkip env st p) (hcn ▸ hmesh)]
    by_cases hp : p.1 = "MeshId"
    · unfold writeStepSkip
      rw [if_pos ⟨hmesh, hp⟩]
    · rcases writeLike_skip env st p with he | ⟨dv, he⟩
      · rw [he]
      · rw [he]; exact getProp_setProp_ne st p.1 "MeshId" dv hp

/-! ## Construction lemmas -/

theorem constructBase_className (env : Env) (d : SNode) (b : Inst)
    (h : constructBase env d = .ok b) : b.className = d.className := by
  obtain ⟨c, n, props, ch, meshId⟩ := d
  unfold constructBase at h
  simp only at h
  split at h
  · rename_i hc
    split at h
    · injection h with h
      subst h
      rw [show (writePropsNoSkip env (Inst.mk "Attachment" n _ .nil true) props) =
        props.foldl (writeStepNoSkip env) (Inst.mk "Attachment" n _ .nil true) from rfl,
        writeFold_className (writeLike_noSkip env)]
      exact hc.symm
    · exact absurd h (by simp)
  · split at h
    · split at h
      · rename_i hcs
        split at h
        · injection h with h; subst h; exact hcs.1.symm
        · split at h
          · injection h with h; subst h; rfl
          · exact absurd h (by simp)
      · split at h
        · injection h with h; subst h; rfl
        · exact absurd h (by simp)
    · split at h
      · injection h with h; subst h; rfl
      · exact absurd h (by simp)

theorem constructBase_name (env : Env) (d : SNode) (b : Inst)
    (h : constructBase env d = .ok b) : b.name = d.name := by
  obtain ⟨c, n, props, ch, meshId⟩ := d
  unfold constructBase at h
  simp only at h
  split at h
  · split at h
    · injection h with h
      subst h
      rw [show (writePropsNoSkip env (Inst.mk "Attachment" n _ .nil true) props) =
        props.foldl (writeStepNoSkip env) (Inst.mk "Attachment" n _ .nil true) from rfl,
        writeFold_name (writeLike_noSkip env)]
      rfl
    · exact absurd h (by simp)
  · split at h
    · split at h
      · split at h
        · injection h with h; subst h; rfl
        · split at h
          · injection h with h; subst h; rfl
          · exact absurd h (by simp)
      · split at h
        · injection h with h; subst h; rfl
        · exact absurd h (by simp)
    · split at h
      · injection h with h; subst h; rfl
      · exact absurd h (by simp)

theorem constructBase_children (env : Env) (d : SNode) (b : Inst)
    (h : constructBase env d = .ok b) : b.children = .nil := by
  obtain ⟨c, n, props, ch, meshId⟩ := d
  unfold constructBase at h
  simp only at h
  split at h
  · split at h
    · injection h with h
      subst h
      rw [show (writePropsNoSkip env (Inst.mk "Attachment" n _ .nil true) props) =
        props.foldl (writeStepNoSkip env) (Inst.mk "Attachment" n _ .nil true) from rfl,
        writeFold_children (writeLike_noSkip env)]
      rfl
    · exact absurd h (by simp)
  · split at h
    · split at h
      · split at h
        · injection h with h; subst h; rfl
        · split at h
          · injection h with h; subst h; rfl
          · exact absurd h (by simp)
      · split at h
        · injection h with h; subst h; rfl
        · exact absurd h (by simp)
    · split at h
      · injection h with h; subst h; rfl
      · exact absurd h (by simp)

/-- If `Instance.new` succeeds on the node's class name, construction
succeeds (the mesh branch either succeeds through the importer or falls
back to `Instance.new`). -/
theorem constructBase_ok (env : Env) (d : SNode) (dps : List (String × Val))
    (h : env.newInstance d.className = some dps) :
    ∃ b, constructBase env d = .ok b := by
  obtain ⟨c, n, props, ch, meshId⟩ := d
  simp only [SNode.className] at h
  unfold constructBase
  simp only
  split
  · rename_i hc
    rw [← hc, h]
    exact ⟨_, rfl⟩
  · cases meshId with
    | none => rw [h]; exact ⟨_, rfl⟩
    | some s =>
      simp only
      split
      · cases henv : env.createMeshPart s with
        | some mps => exact ⟨_, rfl⟩
        | none => exact ⟨_, by rw [h]⟩
      · rw [h]; exact ⟨_, rfl⟩

mutual

/-- `Instance.new` succeeds on every class name of the wire tree. -/
def creatableTree (env : Env) : SNode → Bool
  | .mk c _ _ ch _ => (env.newInstance c).isSome && creatableForest env ch

/-- `Instance.new` succeeds on every class name of the wire forest. -/
def creatableForest (env : Env) : SNodeList → Bool
  | .nil => true
  | .cons d t => creatableTree env d && creatableForest env t

end

theorem InstList.nil_append (l : InstList) : InstList.append .nil l = l := rfl

theorem appendChildren_getProp (st : Inst) (cs : InstList) (k : String) :
    (st.appendChildren cs).getProp k = st.getProp k := by
  obtain ⟨c, n, ps, ch, a⟩ := st; rfl

theorem appendChildren_className (st : Inst) (cs : InstList) :
    (st.appendChildren cs).className = st.className := by
  obtain ⟨c, n, ps, ch, a⟩ := st; rfl

theorem appendChildren_name (st : Inst) (cs : InstList) :
    (st.appendChildren cs).name = st.name := by
  obtain ⟨c, n, ps, ch, a⟩ := st; rfl

mutual

/-- When every class in the wire tree is creatable, `deserializeInstance`
returns a reconstructed object (property failures never abort it). -/
theorem deserializeInstance_ok (env : Env) :
    ∀ d : SNode, creatableTree env d = true →
      ∃ i, deserializeInstance env d = .ok i := by
  intro d h
  obtain ⟨c, n, props, ch, meshId⟩ := d
  rw [creatableTree] at h
  simp only [Bool.and_eq_true, Option.isSome_iff_exists] at h
  obtain ⟨⟨dps, hdps⟩, hch⟩ := h
  obtain ⟨b, hb⟩ := constructBase_ok env (.mk c n props ch meshId) dps hdps
  obtain ⟨cs, hcs, _⟩ := deserializeForest_ok env ch hch
  refine ⟨(writePropsSkip env b props).appendChildren cs, ?_⟩
  rw [deserializeInstance, hb]
  show (deserializeForest env ch).bind _ = _
  rw [hcs]
  rfl

/-- When every class in the wire forest is creatable, the child loop
returns a forest of the same length. -/
theorem deserializeForest_ok (env : Env) :
    ∀ l : SNodeList, creatableForest env l = true →
      ∃ rs, deserializeForest env l = .ok rs ∧ rs.length = l.length := by
  intro l h
  match l with
  | .nil => exact ⟨.nil, rfl, rfl⟩
  | .cons d t =>
    rw [creatableForest] at h
    simp only [Bool.and_eq_true] at h
    obtain ⟨i, hi⟩ := deserializeInstance_ok env d h.1
    obtain ⟨rs, hrs, hlen⟩ := deserializeForest_ok env t h.2
    refine ⟨.cons i rs, ?_, ?_⟩
    · rw [deserializeForest, hi]
      show (deserializeForest env t).bind _ = _
      rw [hrs]
      rfl
    · show rs.length + 1 = t.length + 1
      rw [hlen]

end

/-! ## Pruning (for the archivability claim) -/

mutual

/-- Remove every non-archivable descendant (at any depth), keeping the root. -/
def prune : Inst → Inst
  | .mk c n ps ch a => .mk c n ps (pruneForest ch) a

/-- Remove non-archivable trees from a forest and prune the survivors. -/
def pruneForest : InstList → InstList
  | .nil => .nil
  | .cons c t => if c.archivable then .cons (prune c) (pruneForest t) else pruneForest t

end

theorem prune_archivable (i : Inst) : (prune i).archivable = i.archivable := by
  obtain ⟨c, n, ps, ch, a⟩ := i; rfl

/-- Keep the archivable members of a forest, in order (no recursion). -/
def filterArchivable : InstList → InstList
  | .nil => .nil
  | .cons c t => if c.archivable then .cons c (filterArchivable t) else filterArchivable t

/-- Serialize every member of a forest. -/
def mapSerialize (env : Env) : InstList → SNodeList
  | .nil => .nil
  | .cons c t => .cons (serializeInstance env c) (mapSerialize env t)

theorem serializeForest_eq_filter (env : Env) : ∀ l : InstList,
    serializeForest env l = mapSerialize env (filterArchivable l) := by
  intro l
  match l with
  | .nil => rfl
  | .cons c t =>
    rw [serializeForest, filterArchivable]
    by_cases h : c.archivable = true
    · rw [if_pos h, if_pos h, mapSerialize, serializeForest_eq_filter env t]
    · rw [if_neg h, if_neg h, serializeForest_eq_filter env t]

/-- Attribute discovery only reads the class name and the property bag; the
children and the archivable flag are irrelevant to it. -/
theorem gip_children_irrel (env : Env) (c n n' : String) (ps : List (String × Val))
    (ch ch' : InstList) (a a' : Bool) :
    getInstanceProperties env (.mk c n ps ch a) =
    getInstanceProperties env (.mk c n' ps ch' a') := rfl

mutual

/-- Pruning non-archivable descendants first does not change the serialized
output: the serializer never visits them. -/
theorem serializeInstance_prune (env : Env) : ∀ i : Inst,
    serializeInstance env (prune i) = serializeInstance env i := by
  intro i
  obtain ⟨c, n, ps, ch, a⟩ := i
  rw [prune, serializeInstance, serializeInstance, serializeForest_prune env ch,
    gip_children_irrel env c n n ps (pruneForest ch) ch a a]

theorem serializeForest_prune (env : Env) : ∀ l : InstList,
    serializeForest env (pruneForest l) = serializeForest env l := by
  intro l
  match l with
  | .nil => rfl
  | .cons c t =>
    rw [pruneForest]
    by_cases h : c.archivable = true
    · rw [if_pos h, serializeForest, serializeForest, if_pos h,
        if_pos ((prune_archivable c).trans h), serializeInstance_prune env c,
        serializeForest_prune env t]
    · rw [if_neg h, serializeForest, if_neg h, serializeForest_prune env t]

end

/-! ## The single-discovery-pass serializer (spec 4.3) -/

mutual

/-- Modelled from the spec: the Tree Serializer as the spec describes it,
running exactly one Attribute Discovery and encode pass per node and
inserting the result into a fresh `attributes` map, with no
attachment-special-case second pass.  Comparison model for the
refinement claim. -/
def serializeInstanceOnce (env : Env) : Inst → SNode
  | .mk c n ps ch arch =>
    let meshId : Option String :=
      if env.isA c "MeshPart" then
        match lookupA ps "MeshId" with
        | some (.vstr s) => some s
        | _ => none
      else none
    .mk c n (insertAll [] (getInstanceProperties env (.mk c n ps ch arch)))
      (serializeForestOnce env ch) meshId

/-- Modelled from the spec: the child loop of the single-pass serializer. -/
def serializeForestOnce (env : Env) : InstList → SNodeList
  | .nil => .nil
  | .cons c t =>
    if c.archivable then .cons (serializeInstanceOnce env c) (serializeForestOnce env t)
    else serializeForestOnce env t

end

mutual

theorem serializeInstance_eq_once (env : Env) : ∀ i : Inst,
    serializeInstance env i = serializeInstanceOnce env i := by
  intro i
  obtain ⟨c, n, ps, ch, a⟩ := i
  rw [serializeInstance, serializeInstanceOnce, serializeForest_eq_once env ch]
  have hn : NodupKeys (getInstanceProperties env (Inst.mk c n ps ch a)) :=
    nodupKeys_gip env (Inst.mk c n ps ch a)
  have hins : insertAll [] (getInstanceProperties env (Inst.mk c n ps ch a)) =
      getInstanceProperties env (Inst.mk c n ps ch a) := insertAll_nil _ hn
  by_cases hatt : env.isA c "Attachment" = true
  · rw [if_pos hatt, hins, insertAll_of_subset _ _ hn (fun p hp => hp)]
  · rw [if_neg hatt]

theorem serializeForest_eq_once (env : Env) : ∀ l : InstList,
    serializeForest env l = serializeForestOnce env l := by
  intro l
  match l with
  | .nil => rfl
  | .cons c t =>
    rw [serializeForest, serializeForestOnce, serializeInstance_eq_once env c,
      serializeForest_eq_once env t]

end

/-! ## Tree round trip -/

theorem appendChildren_children (st : Inst) (cs : InstList) :
    (st.appendChildren cs).children = st.children.append cs := by
  obtain ⟨c, n, ps, ch, a⟩ := st; rfl

/-- Unfolded shape of a serialized node, with the duplicated attachment pass
already collapsed. -/
theorem serializeInstance_unfold (env : Env) (c n : String)
    (ps : List (String × Val)) (ch : InstList) (a : Bool) :
    serializeInstance env (.mk c n ps ch a) =
      SNode.mk c n (getInstanceProperties env (.mk c n ps ch a))
        (serializeForest env ch)
        (if env.isA c "MeshPart" = true then
          match lookupA ps "MeshId" with
          | some (.vstr s) => some s
          | _ => none
        else none) := by
  rw [serializeInstance]
  have hn : NodupKeys (getInstanceProperties env (Inst.mk c n ps ch a)) :=
    nodupKeys_gip env (Inst.mk c n ps ch a)
  have hins : insertAll [] (getInstanceProperties env (Inst.mk c n ps ch a)) =
      getInstanceProperties env (Inst.mk c n ps ch a) := insertAll_nil _ hn
  by_cases hatt : env.isA c "Attachment" = true
  · rw [if_pos hatt, hins, insertAll_of_subset _ _ hn (fun p hp => hp)]
  · rw [if_neg hatt, hins]

/-- The host facts the tree round trip relies on: every property write is
accepted, the enum namespace resolves every encoded pair back to the same
enum item, only `MeshPart` itself satisfies `IsA "MeshPart"`, the mesh
importer succeeds and returns a mesh whose `MeshId` is the requested
identity, and `Instance.new` succeeds on every class. -/
structure HostFaithful (env : Env) : Prop where
  writeok : ∀ c k v, env.writeOk c k v = true
  enumc : ∀ t n, env.enumLookup t n = some (.enum t n)
  meshOnly : ∀ c, env.isA c "MeshPart" = true → c = "MeshPart"
  imp : ∀ s, (env.createMeshPart s).isSome = true
  impFid : ∀ s m, env.createMeshPart s = some m → lookupA m "MeshId" = some (.vstr s)
  newOk : ∀ c, (env.newInstance c).isSome = true

mutual

/-- The per-tree hypotheses of the round-trip claim: every attribute
retained by discovery is the encoding of a read value of a serializable
kind; a `MeshPart` carries a non-empty string `MeshId`; every descendant is
archivable and satisfies the same conditions. -/
def goodTree (env : Env) : Inst → Prop
  | .mk c n ps ch a =>
    (∀ k w, lookupA (getInstanceProperties env (.mk c n ps ch a)) k = some w →
      ∃ raw, lookupA ps k = some raw ∧ w = serializeProperty raw ∧
        serializableKind raw = true) ∧
    (env.isA c "MeshPart" = true →
      ∃ s, lookupA ps "MeshId" = some (.vstr s) ∧ s ≠ "") ∧
    goodForest env ch

/-- `goodTree` for every member of a forest, all archivable. -/
def goodForest (env : Env) : InstList → Prop
  | .nil => True
  | .cons c t => c.archivable = true ∧ goodTree env c ∧ goodForest env t

end

mutual

/-- The reconstruction agrees with the original: same class name, same
name, every attribute retained by discovery reads back with the original
value, and the children agree pairwise in order. -/
def treeAgrees (env : Env) : Inst → Inst → Prop
  | .mk c n ps ch a, r =>
    r.className = c ∧ r.name = n ∧
    (∀ k w, lookupA (getInstanceProperties env (.mk c n ps ch a)) k = some w →
      ∀ raw, lookupA ps k = some raw → r.getProp k = some raw) ∧
    forestAgrees env ch r.children

/-- Pairwise agreement of forests: same length, same order. -/
def forestAgrees (env : Env) : InstList → InstList → Prop
  | .nil, rs => rs = .nil
  | .cons c t, rs => ∃ r rt, rs = .cons r rt ∧ treeAgrees env c r ∧ forestAgrees env t rt

end

/-- Running the general property loop over the discovered map restores every
retained attribute, the `MeshId` of a mesh object coming from the base
object instead of the loop. -/
theorem writeProps_round (env : Env) (H : HostFaithful env)
    (D ps : List (String × Val)) (base : Inst)
    (hD : NodupKeys D)
    (hspec : ∀ k w, lookupA D k = some w →
      ∃ raw, lookupA ps k = some raw ∧ w = serializeProperty raw ∧
        serializableKind raw = true)
    (hmesh : env.isA base.className "MeshPart" = true →
      ∀ raw, lookupA ps "MeshId" = some raw → base.getProp "MeshId" = some raw) :
    ∀ k w, lookupA D k = some w → ∀ raw, lookupA ps k = some raw →
      (writePropsSkip env base D).getProp k = some raw := by
  intro k w hlk raw hraw
  obtain ⟨raw', hraw', hw, hser⟩ := hspec k w hlk
  have hrr : raw = raw' := by
    rw [hraw] at hraw'
    exact Option.some_injective _ hraw'
  subst hrr
  have hdec : deserializeProperty env w = .ok raw := by
    rw [hw]
    exact decode_encode env raw hser (fun t n _ => H.enumc t n)
  by_cases hskip : env.isA base.className "MeshPart" = true ∧ k = "MeshId"
  · obtain ⟨hm, hk⟩ := hskip
    subst hk
    rw [writePropsSkip_meshId env D base hm]
    exact hmesh hm raw hraw
  · exact writePropsSkip_hit env D k w raw hD (mem_of_lookupA _ _ _ hlk) base hskip
      hdec (H.writeok _ _ _)

mutual

/-- Tree round trip under the host facts and per-tree conditions. -/
theorem roundtrip_tree (env : Env) (H : HostFaithful env) :
    ∀ i : Inst, goodTree env i →
      ∃ r, deserializeInstance env (serializeInstance env i) = .ok r ∧
        treeAgrees env i r := by
  intro i hg
  obtain ⟨c, n, ps, ch, a⟩ := i
  rw [goodTree] at hg
  obtain ⟨hprops, hmesh, hch⟩ := hg
  obtain ⟨rs, hrs, hfa⟩ := roundtrip_forest env H ch hch
  rw [serializeInstance_unfold]
  have hD : NodupKeys (getInstanceProperties env (Inst.mk c n ps ch a)) :=
    nodupKeys_gip env (Inst.mk c n ps ch a)
  by_cases hatt : c = "Attachment"
  · subst hatt
    obtain ⟨dps, hdps⟩ := Option.isSome_iff_exists.mp (H.newOk "Attachment")
    have hM : env.isA "Attachment" "MeshPart" = false := by
      by_contra hx
      simp only [Bool.not_eq_false] at hx
      exact absurd (H.meshOnly _ hx) (by decide)
    rw [if_neg (by rw [hM]; simp)]
    have hcb : constructBase env
        (SNode.mk "Attachment" n (getInstanceProperties env (Inst.mk "Attachment" n ps ch a))
          (serializeForest env ch) none) =
        .ok (writePropsNoSkip env (.mk "Attachment" n dps .nil true)
          (getInstanceProperties env (Inst.mk "Attachment" n ps ch a))) := by
      simp only [constructBase]
      simp [hdps]
    refine ⟨(writePropsSkip env
        (writePropsNoSkip env (.mk "Attachment" n dps .nil true)
          (getInstanceProperties env (Inst.mk "Attachment" n ps ch a)))
        (getInstanceProperties env (Inst.mk "Attachment" n ps ch a))).appendChildren rs,
      ?_, ?_⟩
    · rw [deserializeInstance, hcb]
      show (deserializeForest env (serializeForest env ch)).bind _ = _
      rw [hrs]
      rfl
    · have hbcn : (writePropsNoSkip env (.mk "Attachment" n dps .nil true)
          (getInstanceProperties env (Inst.mk "Attachment" n ps ch a))).className =
          "Attachment" :=
        writeFold_className (writeLike_noSkip env) _ _
      have hbn : (writePropsNoSkip env (.mk "Attachment" n dps .nil true)
          (getInstanceProperties env (Inst.mk "Attachment" n ps ch a))).name = n :=
        writeFold_name (writeLike_noSkip env) _ _
      have hbch : (writePropsNoSkip env (.mk "Attachment" n dps .nil true)
          (getInstanceProperties env (Inst.mk "Attachment" n ps ch a))).children = .nil :=
        writeFold_children (writeLike_noSkip env) _ _
      rw [treeAgrees]
      refine ⟨?_, ?_, ?_, ?_⟩
      · rw [appendChildren_className, writePropsSkip_className env, hbcn]
      · rw [appendChildren_name, writePropsSkip_name env, hbn]
      · intro k w hlk raw hraw
        rw [appendChildren_getProp]
        refine writeProps_round env H _ ps _ hD hprops ?_ k w hlk raw hraw
        intro hx
        rw [hbcn, hM] at hx
        exact absurd hx (by simp)
      · rw [appendChildren_children, writePropsSkip_children env, hbch]
        exact hfa
  · by_cases hm : env.isA c "MeshPart" = true
    · have hc' : c = "MeshPart" := H.meshOnly c hm
      subst hc'
      obtain ⟨s, hs, hsne⟩ := hmesh hm
      rw [if_pos hm, hs]
      obtain ⟨mps, hmps⟩ := Option.isSome_iff_exists.mp (H.imp s)
      have hcb : constructBase env
          (SNode.mk "MeshPart" n (getInstanceProperties env (Inst.mk "MeshPart" n ps ch a))
            (serializeForest env ch) (some s)) =
          .ok (.mk "MeshPart" n mps .nil true) := by
        simp only [constructBase]
        simp [hmps, hsne]
      refine ⟨(writePropsSkip env (.mk "MeshPart" n mps .nil true)
          (getInstanceProperties env (Inst.mk "MeshPart" n ps ch a))).appendChildren rs,
        ?_, ?_⟩
      · rw [deserializeInstance, hcb]
        show (deserializeForest env (serializeForest env ch)).bind _ = _
        rw [hrs]
        rfl
      · rw [treeAgrees]
        refine ⟨?_, ?_, ?_, ?_⟩
        · rw [appendChildren_className, writePropsSkip_className env]
          rfl
        · rw [appendChildren_name, writePropsSkip_name env]
          rfl
        · intro k w hlk raw hraw
          rw [appendChildren_getProp]
          refine writeProps_round env H _ ps _ hD hprops ?_ k w hlk raw hraw
          intro _ raw' hraw'
          have : raw' = Val.vstr s := by
            rw [hs] at hraw'
            exact (Option.some_injective _ hraw').symm
          subst this
          show lookupA mps "MeshId" = some (Val.vstr s)
          exact H.impFid s mps hmps
        · rw [appendChildren_children, writePropsSkip_children env]
          exact hfa
    · rw [if_neg hm]
      obtain ⟨dps, hdps⟩ := Option.isSome_iff_exists.mp (H.newOk c)
      have hcb : constructBase env
          (SNode.mk c n (getInstanceProperties env (Inst.mk c n ps ch a))
            (serializeForest env ch) none) =
          .ok (.mk c n dps .nil true) := by
        simp only [constructBase]
        simp [hatt, hdps]
      refine ⟨(writePropsSkip env (.mk c n dps .nil true)
          (getInstanceProperties env (Inst.mk c n ps ch a))).appendChildren rs,
        ?_, ?_⟩
      · rw [deserializeInstance, hcb]
        show (deserializeForest env (serializeForest env ch)).bind _ = _
        rw [hrs]
        rfl
      · rw [treeAgrees]
        refine ⟨?_, ?_, ?_, ?_⟩
        · rw [appendChildren_className, writePropsSkip_className env]
          rfl
        · rw [appendChildren_name, writePropsSkip_name env]
          rfl
        · intro k w hlk raw hraw
          rw [appendChildren_getProp]
          refine writeProps_round env H _ ps _ hD hprops ?_ k w hlk raw hraw
          intro hx
          exact absurd hx hm
        · rw [appendChildren_children, writePropsSkip_children env]
          exact hfa

/-- Forest round trip under the host facts and per-forest conditions. -/
theorem roundtrip_forest (env : Env) (H : HostFaithful env) :
    ∀ l : InstList, goodForest env l →
      ∃ rs, deserializeForest env (serializeForest env l) = .ok rs ∧
        forestAgrees env l rs := by
  intro l hg
  match l with
  | .nil => exact ⟨.nil, rfl, rfl⟩
  | .cons c t =>
    rw [goodForest] at hg
    obtain ⟨harch, hgc, hgt⟩ := hg
    obtain ⟨r, hr, hag⟩ := roundtrip_tree env H c hgc
    obtain ⟨rt, hrt, hagt⟩ := roundtrip_forest env H t hgt
    refine ⟨.cons r rt, ?_, ?_⟩
    · rw [serializeForest, if_pos harch, deserializeForest, hr]
      show (deserializeForest env (serializeForest env t)).bind _ = _
      rw [hrt]
      rfl
    · rw [forestAgrees]
      exact ⟨r, rt, rfl, hag, hagt⟩

end

/-! ## Claim theorems -/

/-- C1.  For every value of one of the eight structured kinds (for
`EnumItem`, assuming the named enum type and member exist in the host and
resolve to the same item), decoding the encoding yields the value back,
component for component. -/
theorem claim1_codec_roundtrip (env : Env) (v : Val)
    (hs : isStructured v = true)
    (henum : ∀ t n, v = .enum t n → env.enumLookup t n = some (.enum t n)) :
    deserializeProperty env (serializeProperty v) = .ok v :=
  decode_encode env v (by rw [serializableKind, hs, Bool.or_true]) henum

/-- A host with a fully consistent enum namespace, used to evaluate the
claims on concrete inputs. -/
def envConsistent : Env :=
  { apiClasses := []
    isA := fun _ _ => false
    enumLookup := fun t n => some (.enum t n)
    newInstance := fun _ => some []
    createMeshPart := fun s => some [("MeshId", .vstr s)]
    writeOk := fun _ _ _ => true }

theorem claim1_codec_roundtrip_witness :
    isStructured (Val.enum "Material" "Plastic") = true ∧
    deserializeProperty envConsistent
      (serializeProperty (Val.enum "Material" "Plastic")) =
      .ok (Val.enum "Material" "Plastic") :=
  ⟨rfl, claim1_codec_roundtrip envConsistent (Val.enum "Material" "Plastic") rfl
    (fun _ _ _ => rfl)⟩

/-- C2.  Under the host facts (`HostFaithful`) and the claim's conditions on
the tree (`goodTree`: every attribute retained by discovery is the encoding
of a read value of a serializable kind, every descendant is archivable,
mesh objects carry a usable mesh identity; constructions and writes
succeed by `HostFaithful`), deserializing the serialization yields a tree
that agrees with the original: same class names, same names, every
retained attribute reads back with its original value, and the same child
count and order at every level (`treeAgrees`). -/
theorem claim2_tree_roundtrip (env : Env) (H : HostFaithful env) (i : Inst)
    (hg : goodTree env i) :
    ∃ r, deserializeInstance env (serializeInstance env i) = .ok r ∧
      treeAgrees env i r :=
  roundtrip_tree env H i hg

theorem claim2_tree_roundtrip_witness :
    HostFaithful envConsistent ∧
    goodTree envConsistent (.mk "Part" "Block" [("Color", .c3 1 0 0)]
      (.cons (.mk "Folder" "F" [] .nil true) .nil) true) ∧
    ∃ r, deserializeInstance envConsistent
        (serializeInstance envConsistent (.mk "Part" "Block" [("Color", .c3 1 0 0)]
          (.cons (.mk "Folder" "F" [] .nil true) .nil) true)) = .ok r ∧
      treeAgrees envConsistent (.mk "Part" "Block" [("Color", .c3 1 0 0)]
        (.cons (.mk "Folder" "F" [] .nil true) .nil) true) r := by
  have H : HostFaithful envConsistent :=
    { writeok := fun _ _ _ => rfl
      enumc := fun _ _ => rfl
      meshOnly := fun _ h => nomatch h
      imp := fun _ => rfl
      impFid := fun _ _ h => by cases h; rfl
      newOk := fun _ => rfl }
  have hg : goodTree envConsistent (.mk "Part" "Block" [("Color", .c3 1 0 0)]
      (.cons (.mk "Folder" "F" [] .nil true) .nil) true) := by
    simp only [goodTree, goodForest, Inst.archivable]
    refine ⟨?_, ?_, trivial, ⟨?_, ?_, trivial⟩, trivial⟩
    · intro k w h; exact nomatch h
    · intro h; exact nomatch h
    · intro k w h; exact nomatch h
    · intro h; exact nomatch h
  exact ⟨H, hg, claim2_tree_roundtrip envConsistent H _ hg⟩

/-- C7.  The serialized children are exactly the archivable children, in
host order, each serialized; and pruning every non-archivable descendant
(at any depth) before serializing changes nothing, i.e. non-archivable
subtrees are absent from the output regardless of depth. -/
theorem claim7_archivability_pruning (env : Env) (i : Inst) :
    (serializeInstance env i).children =
      mapSerialize env (filterArchivable i.children) ∧
    serializeInstance env (prune i) = serializeInstance env i := by
  constructor
  · obtain ⟨c, n, ps, ch, a⟩ := i
    rw [serializeInstance]
    show serializeForest env ch = _
    exact serializeForest_eq_filter env ch
  · exact serializeInstance_prune env i

/-- C10.  The serializer is extensionally equal to the single-pass
serializer the spec describes: the duplicated attachment discovery pass
re-inserts identical key/value pairs into the `Properties` map and leaves
it unchanged. -/
theorem claim10_single_pass (env : Env) (i : Inst) :
    serializeInstance env i = serializeInstanceOnce env i :=
  serializeInstance_eq_once env i

/-! ## Enum lookup failure during reconstruction (C3) -/

/-- A decode failure leaves the general write step inert. -/
theorem writeStepSkip_error (env : Env) (st : Inst) (p : String × Val)
    (e : String) (h : deserializeProperty env p.2 = .error e) :
    writeStepSkip env st p = st := by
  unfold writeStepSkip
  split
  · rfl
  · rw [h]

/-- A decode failure leaves the attachment write step inert. -/
theorem writeStepNoSkip_error (env : Env) (st : Inst) (p : String × Val)
    (e : String) (h : deserializeProperty env p.2 = .error e) :
    writeStepNoSkip env st p = st := by
  unfold writeStepNoSkip
  rw [h]

/-- The wire form of an encoded enum item. -/
def enumWire (et en : String) : Val :=
  .table (.fcons "_type" (.vstr "EnumItem")
         (.fcons "EnumType" (.vstr et) (.fcons "Name" (.vstr en) .fnil)))

/-- A host whose enum namespace resolves nothing (the named enum type or
member does not exist); every class is creatable with an empty default
bag. -/
def cenvNoEnum : Env :=
  { apiClasses := []
    isA := fun _ _ => false
    enumLookup := fun _ _ => none
    newInstance := fun _ => some []
    createMeshPart := fun _ => none
    writeOk := fun _ _ _ => true }

/-- C3 counterexample.  On a node carrying an `EnumItem` attribute whose
enum lookup fails, `deserializeProperty` does raise the lookup error, but
`deserializeInstance` returns the constructed object successfully (the
attribute merely absent): the failure is attribute-scoped, the top-level
call is not aborted. -/
theorem claim3_counterexample :
    deserializeProperty cenvNoEnum (enumWire "Material" "Plastic") =
      .error "enum lookup failed" ∧
    deserializeInstance cenvNoEnum
      (.mk "Part" "P" [("Material", enumWire "Material" "Plastic")] .nil none) =
      .ok (.mk "Part" "P" [] .nil true) :=
  ⟨rfl, rfl⟩

/-- C3 as amended.  An unresolved enum lookup makes the value codec raise
to its caller, but `deserializeInstance` catches it per attribute, skips
the attribute and returns the constructed node successfully: the error is
attribute-scoped, not fatal to the top-level call. -/
theorem claim3_amended (env : Env) (c n k et en : String)
    (dps : List (String × Val))
    (hl : env.enumLookup et en = none) (hn : env.newInstance c = some dps) :
    deserializeProperty env (enumWire et en) = .error "enum lookup failed" ∧
    deserializeInstance env (.mk c n [(k, enumWire et en)] .nil none) =
      .ok (.mk c n dps .nil true) := by
  have hdec : deserializeProperty env (enumWire et en) =
      .error "enum lookup failed" := by
    simp [deserializeProperty, enumWire, fget, asStr, hl, bind, Except.bind]
  refine ⟨hdec, ?_⟩
  by_cases hc : c = "Attachment"
  · subst hc
    have hw : writePropsNoSkip env (.mk "Attachment" n dps .nil true)
        [(k, enumWire et en)] = .mk "Attachment" n dps .nil true :=
      writeStepNoSkip_error env _ _ _ hdec
    have hcb : constructBase env
        (SNode.mk "Attachment" n [(k, enumWire et en)] .nil none) =
        .ok (.mk "Attachment" n dps .nil true) := by
      simp only [constructBase]
      simp [hn, hw]
    rw [deserializeInstance, hcb]
    have hwp : writePropsSkip env (.mk "Attachment" n dps .nil true)
        [(k, enumWire et en)] = .mk "Attachment" n dps .nil true :=
      writeStepSkip_error env _ _ _ hdec
    show Except.ok ((writePropsSkip env (.mk "Attachment" n dps .nil true)
      [(k, enumWire et en)]).appendChildren .nil) = _
    rw [hwp]
    rfl
  · have hcb : constructBase env
        (SNode.mk c n [(k, enumWire et en)] .nil none) =
        .ok (.mk c n dps .nil true) := by
      simp only [constructBase]
      simp [hc, hn]
    rw [deserializeInstance, hcb]
    have hwp : writePropsSkip env (.mk c n dps .nil true)
        [(k, enumWire et en)] = .mk c n dps .nil true :=
      writeStepSkip_error env _ _ _ hdec
    show Except.ok ((writePropsSkip env (.mk c n dps .nil true)
      [(k, enumWire et en)]).appendChildren .nil) = _
    rw [hwp]
    rfl

theorem claim3_amended_witness :
    cenvNoEnum.enumLookup "Material" "Plastic" = none ∧
    cenvNoEnum.newInstance "Part" = some [] ∧
    (deserializeProperty cenvNoEnum (enumWire "Material" "Plastic") =
        .error "enum lookup failed" ∧
      deserializeInstance cenvNoEnum
        (.mk "Part" "P" [("Material", enumWire "Material" "Plastic")] .nil none) =
        .ok (.mk "Part" "P" [] .nil true)) :=
  ⟨rfl, rfl, claim3_amended cenvNoEnum "Part" "P" "Material" "Material" "Plastic" [] rfl rfl⟩

/-! ## Unknown tag pass-through (C8) -/

/-- The eight tags the decoder dispatches on. -/
def knownTags : List String :=
  ["Vector3", "CFrame", "Color3", "NumberSequence", "ColorSequence",
   "EnumItem", "Vector2", "NumberRange"]

/-- A `_type` field value the decoder recognizes: a string naming one of
the eight kinds. -/
def knownTag : Val → Bool
  | .vstr s => knownTags.contains s
  | _ => false

/-- C8.  A table whose `_type` field is absent, non-string, or an unknown
tag decodes to itself; so does every non-table value.  No error is
raised. -/
theorem claim8_unknown_tag_passthrough (env : Env) (v : Val)
    (h : ∀ fs, v = .table fs → knownTag (fget fs "_type") = false) :
    deserializeProperty env v = .ok v := by
  cases v
  case table fs =>
    have hk := h fs rfl
    rw [deserializeProperty]
    cases hft : fget fs "_type"
    case vnil => rfl
    case vstr tag =>
      rw [hft] at hk
      simp only [knownTag, knownTags] at hk
      split <;> simp_all
    all_goals rfl
  all_goals rfl

theorem claim8_unknown_tag_passthrough_witness :
    knownTag (fget (.fcons "_type" (.vstr "Potato")
      (.fcons "X" (.vnum 1) .fnil)) "_type") = false ∧
    deserializeProperty cenvNoEnum
      (.table (.fcons "_type" (.vstr "Potato") (.fcons "X" (.vnum 1) .fnil))) =
      .ok (.table (.fcons "_type" (.vstr "Potato") (.fcons "X" (.vnum 1) .fnil))) :=
  ⟨rfl, claim8_unknown_tag_passthrough cenvNoEnum _
    (fun fs hfs => by cases hfs; rfl)⟩

/-! ## The shape of stored values (C5) -/

/-- A catalog exposing one `UDim2`-valued property; `isA` accepts
everything. -/
def cenvCatalogU : Env :=
  { apiClasses := [⟨"UIGridStyleLayout", [⟨"CellSize", "Property", none⟩]⟩]
    isA := fun _ _ => true
    enumLookup := fun _ _ => none
    newInstance := fun _ => none
    createMeshPart := fun _ => none
    writeOk := fun _ _ _ => false }

/-- An object whose `CellSize` reads as a `UDim2`. -/
def instU : Inst :=
  .mk "UIGridLayout" "L" [("CellSize", .udim2 0 1 0 1)] .nil true

/-- C5 counterexample.  `shouldSerializeProperty` also accepts `UDim`,
`UDim2`, `Rect` and `BrickColor`, and `serializeProperty` stores them
unchanged: the serialized `Properties` map of `instU` holds a raw `UDim2`,
which is neither a primitive nor one of the eight tagged records (every
structured encoding is a table). -/
theorem claim5_counterexample :
    lookupA (serializeInstance cenvCatalogU instU).properties "CellSize" =
      some (.udim2 0 1 0 1) ∧
    isPrimitive (.udim2 0 1 0 1) = false ∧
    ∀ raw, isStructured raw = true → serializeProperty raw ≠ .udim2 0 1 0 1 := by
  refine ⟨rfl, rfl, fun raw h => ?_⟩
  obtain ⟨fs, hfs⟩ := serializeProperty_structured_table raw h
  rw [hfs]
  exact fun he => nomatch he

/-- C5 as amended.  Every value the serializer stores in `Properties` is
the image under `serializeProperty` of a value read from the object that
passed `shouldSerializeProperty`; hence it is either one of the eight
tagged records (the encoding of a structured value) or a non-structured
host value stored unchanged (primitives, plus pass-through kinds such as
`UDim2` and any value captured by the force-include names). -/
theorem claim5_amended (env : Env) (i : Inst) (k : String) (w : Val)
    (h : lookupA (serializeInstance env i).properties k = some w) :
    ∃ raw, i.getProp k = some raw ∧ shouldSerializeProperty k raw = true ∧
      w = serializeProperty raw ∧
      ((∃ v, isStructured v = true ∧ w = serializeProperty v) ∨
        isStructured w = false) := by
  rw [serializeInstance_properties] at h
  obtain ⟨raw, hr, hs, hw⟩ := gip_lookup_spec env i k w h
  refine ⟨raw, hr, hs, hw, ?_⟩
  by_cases hstr : isStructured raw = true
  · exact Or.inl ⟨raw, hstr, hw⟩
  · right
    rw [hw, serializeProperty_of_not_structured raw (by simpa using hstr)]
    simpa using hstr

theorem claim5_amended_witness :
    lookupA (serializeInstance cenvCatalogU instU).properties "CellSize" =
      some (.udim2 0 1 0 1) ∧
    ∃ raw, instU.getProp "CellSize" = some raw ∧
      shouldSerializeProperty "CellSize" raw = true ∧
      Val.udim2 0 1 0 1 = serializeProperty raw ∧
      ((∃ v, isStructured v = true ∧ Val.udim2 0 1 0 1 = serializeProperty v) ∨
        isStructured (Val.udim2 0 1 0 1) = false) :=
  ⟨rfl, claim5_amended cenvCatalogU instU "CellSize" (.udim2 0 1 0 1) rfl⟩

/-! ## Force-include scope (C4) -/

/-- A catalog whose only member is named `CFrame` (a force-include name)
but carries the `ReadOnly` tag. -/
def cenvReadOnly : Env :=
  { apiClasses := [⟨"BasePart", [⟨"CFrame", "Property", some ["ReadOnly"]⟩]⟩]
    isA := fun _ _ => true
    enumLookup := fun _ _ => none
    newInstance := fun _ => none
    createMeshPart := fun _ => none
    writeOk := fun _ _ _ => false }

/-- A part whose `CFrame` reads fine. -/
def instPart : Inst :=
  .mk "Part" "P" [("CFrame", .cf 0 0 0 1 0 0 0 1 0 0 0 1)] .nil true

/-- C4 counterexample.  `CFrame` is in the force-include set, the object's
read succeeds, yet the catalog's `ReadOnly` tag excludes the member before
`shouldSerializeProperty` is ever consulted: the attribute is absent from
the serialized `Properties`. -/
theorem claim4_counterexample :
    FORCE_INCLUDE.contains "CFrame" = true ∧
    excludedByTags ⟨"CFrame", "Property", some ["ReadOnly"]⟩ = true ∧
    instPart.getProp "CFrame" = some (.cf 0 0 0 1 0 0 0 1 0 0 0 1) ∧
    lookupA (serializeInstance cenvReadOnly instPart).properties "CFrame" = none :=
  ⟨rfl, rfl, rfl, rfl⟩

/-- Re-discovering a key never changes its value: the read is
deterministic, so any later write of the same key re-inserts the same
encoded value. -/
theorem gipMemberStep_preserve (env : Env) (i : Inst) (k : String) (raw : Val)
    (hread : i.getProp k = some raw) (acc : List (String × Val)) (m' : APIMember)
    (h : lookupA acc k = some (serializeProperty raw)) :
    lookupA (gipMemberStep env i acc m') k = some (serializeProperty raw) := by
  unfold gipMemberStep
  split
  · split
    · exact h
    · split
      · exact h
      · split
        · exact h
        · rename_i v hv
          split
          · by_cases hk : m'.name = k
            · rw [hk] at hv
              rw [hv] at hread
              have : v = raw := Option.some_injective _ hread
              subst this
              rw [hk, lookupA_setA_self]
            · rw [lookupA_setA_ne _ _ _ _ hk]
              exact h
          · exact h
  · exact h

theorem gipClassStep_preserve (env : Env) (i : Inst) (k : String) (raw : Val)
    (hread : i.getProp k = some raw) (acc : List (String × Val)) (c : APIClass)
    (h : lookupA acc k = some (serializeProperty raw)) :
    lookupA (gipClassStep env i acc c) k = some (serializeProperty raw) := by
  unfold gipClassStep
  split
  · exact foldl_invariant (fun a => lookupA a k = some (serializeProperty raw))
      (gipMemberStep env i)
      (fun a m' ha => gipMemberStep_preserve env i k raw hread a m' ha)
      c.members acc h
  · exact h

/-- Once a member of a matching class establishes a key, the discovered map
holds its encoded value. -/
theorem gip_establish (env : Env) (i : Inst) (cls : APIClass) (m : APIMember)
    (raw : Val)
    (hcls : cls ∈ env.apiClasses) (hisa : env.isA i.className cls.name = true)
    (hm : m ∈ cls.members) (hprop : m.memberType = "Property")
    (hign : IGNORED_PROPERTIES.contains m.name = false)
    (htags : excludedByTags m = false)
    (hread : i.getProp m.name = some raw)
    (hshould : shouldSerializeProperty m.name raw = true) :
    lookupA (getInstanceProperties env i) m.name = some (serializeProperty raw) := by
  obtain ⟨L1, L2, hsplit⟩ := List.append_of_mem hcls
  rw [getInstanceProperties, hsplit, List.foldl_append, List.foldl_cons]
  refine foldl_invariant (fun a => lookupA a m.name = some (serializeProperty raw))
    (gipClassStep env i)
    (fun a c ha => gipClassStep_preserve env i m.name raw hread a c ha) L2 _ ?_
  rw [gipClassStep, if_pos hisa]
  obtain ⟨l1, l2, hmsplit⟩ := List.append_of_mem hm
  rw [hmsplit, List.foldl_append, List.foldl_cons]
  refine foldl_invariant (fun a => lookupA a m.name = some (serializeProperty raw))
    (gipMemberStep env i)
    (fun a m' ha => gipMemberStep_preserve env i m.name raw hread a m' ha) l2 _ ?_
  have hstep : gipMemberStep env i (List.foldl (gipMemberStep env i)
      (List.foldl (gipClassStep env i) [] L1) l1) m =
      setA (List.foldl (gipMemberStep env i)
        (List.foldl (gipClassStep env i) [] L1) l1) m.name (serializeProperty raw) := by
    rw [gipMemberStep, if_pos hprop]
    rw [if_neg (by rw [hign]; simp)]
    rw [if_neg (by rw [htags]; simp)]
    rw [hread]
    show (if shouldSerializeProperty m.name raw = true then _ else _) = _
    rw [if_pos hshould]
  rw [hstep]
  exact lookupA_setA_self _ _ _

/-- The force-include chain short-circuits `shouldSerializeProperty`
whatever the value's kind. -/
theorem shouldSerialize_of_force (k : String) (v : Val)
    (h : FORCE_INCLUDE.contains k = true) :
    shouldSerializeProperty k v = true := by
  unfold shouldSerializeProperty
  rw [if_pos h]

/-- C4 as amended.  The force-include carve-out bypasses only the
runtime value-kind test inside `shouldSerializeProperty` (including the
`undefined`/function/Instance guards): a readable member of a matching
class whose name is force-included is serialized whatever its value's
kind.  The catalog tag exclusions (`Deprecated`/`Hidden`/`NotScriptable`/
`ReadOnly`), the `Property` member-kind requirement and the static ignore
set still apply before the carve-out is ever consulted. -/
theorem claim4_amended (env : Env) (i : Inst) (cls : APIClass) (m : APIMember)
    (raw : Val)
    (hcls : cls ∈ env.apiClasses) (hisa : env.isA i.className cls.name = true)
    (hm : m ∈ cls.members) (hprop : m.memberType = "Property")
    (hign : IGNORED_PROPERTIES.contains m.name = false)
    (htags : excludedByTags m = false)
    (hforce : FORCE_INCLUDE.contains m.name = true)
    (hread : i.getProp m.name = some raw) :
    lookupA (serializeInstance env i).properties m.name =
      some (serializeProperty raw) := by
  rw [serializeInstance_properties]
  exact gip_establish env i cls m raw hcls hisa hm hprop hign htags hread
    (shouldSerialize_of_force m.name raw hforce)

/-- A catalog exposing a force-include name with an Instance-typed value,
which the value-kind whitelist alone would reject. -/
def cenvForce : Env :=
  { apiClasses := [⟨"BasePart", [⟨"Size", "Property", none⟩]⟩]
    isA := fun _ _ => true
    enumLookup := fun _ _ => none
    newInstance := fun _ => none
    createMeshPart := fun _ => none
    writeOk := fun _ _ _ => false }

theorem claim4_amended_witness :
    (⟨"BasePart", [⟨"Size", "Property", none⟩]⟩ : APIClass) ∈ cenvForce.apiClasses ∧
    FORCE_INCLUDE.contains "Size" = true ∧
    lookupA (serializeInstance cenvForce
      (.mk "Part" "P" [("Size", .inst "child")] .nil true)).properties "Size" =
      some (.inst "child") :=
  ⟨List.mem_singleton.mpr rfl, rfl,
    claim4_amended cenvForce (.mk "Part" "P" [("Size", .inst "child")] .nil true)
      ⟨"BasePart", [⟨"Size", "Property", none⟩]⟩ ⟨"Size", "Property", none⟩
      (.inst "child") (List.mem_singleton.mpr rfl) rfl
      (List.mem_singleton.mpr rfl) rfl rfl rfl rfl rfl⟩

/-! ## Attribute failure isolation (C6) -/

/-- C6.  Once the node is constructed (`constructBase` succeeded) and every
child class is creatable, `deserializeInstance` returns the reconstructed
object: every attribute whose decode and write succeed is set to its
decoded value, every attribute whose decode or write fails keeps the
constructed object's value (it is skipped), all children are processed,
and no error reaches the caller. -/
theorem claim6_attribute_failure_isolation (env : Env) (d : SNode) (b : Inst)
    (hb : constructBase env d = .ok b)
    (hch : creatableForest env d.children = true)
    (hnd : NodupKeys d.properties) :
    ∃ i, deserializeInstance env d = .ok i ∧
      i.className = b.className ∧ i.name = b.name ∧
      i.children.length = d.children.length ∧
      (∀ k v dv, (k, v) ∈ d.properties →
        ¬(env.isA b.className "MeshPart" = true ∧ k = "MeshId") →
        deserializeProperty env v = .ok dv →
        env.writeOk b.className k dv = true →
        i.getProp k = some dv) ∧
      (∀ k v, (k, v) ∈ d.properties →
        (∀ dv, deserializeProperty env v = .ok dv →
          env.writeOk b.className k dv = false) →
        i.getProp k = b.getProp k) := by
  obtain ⟨c, n, props, ch, mid⟩ := d
  obtain ⟨cs, hcs, hlen⟩ := deserializeForest_ok env ch hch
  refine ⟨(writePropsSkip env b props).appendChildren cs, ?_, ?_, ?_, ?_, ?_, ?_⟩
  · rw [deserializeInstance, hb]
    show (deserializeForest env ch).bind _ = _
    rw [hcs]
    rfl
  · rw [appendChildren_className, writePropsSkip_className]
  · rw [appendChildren_name, writePropsSkip_name]
  · rw [appendChildren_children, writePropsSkip_children,
      constructBase_children env _ b hb]
    exact hlen
  · intro k v dv hmem hskip hdec hwr
    rw [appendChildren_getProp]
    exact writePropsSkip_hit env props k v dv hnd hmem b hskip hdec hwr
  · intro k v hmem hfail
    rw [appendChildren_getProp]
    exact writePropsSkip_miss env props k v hnd hmem b hfail

theorem claim6_attribute_failure_isolation_witness :
    constructBase envConsistent (.mk "Part" "Q"
      [("Bad", .table (.fcons "_type" (.vstr "Vector3")
          (.fcons "X" (.vstr "oops") .fnil))),
       ("Good", .vnum 5)] .nil none) = .ok (.mk "Part" "Q" [] .nil true) ∧
    creatableForest envConsistent .nil = true ∧
    NodupKeys [("Bad", Val.table (.fcons "_type" (.vstr "Vector3")
        (.fcons "X" (.vstr "oops") .fnil))),
      ("Good", Val.vnum 5)] ∧
    (∃ i, deserializeInstance envConsistent (.mk "Part" "Q"
        [("Bad", .table (.fcons "_type" (.vstr "Vector3")
            (.fcons "X" (.vstr "oops") .fnil))),
         ("Good", .vnum 5)] .nil none) = .ok i ∧
      i.className = (Inst.mk "Part" "Q" [] .nil true).className ∧
      i.name = (Inst.mk "Part" "Q" [] .nil true).name ∧
      i.children.length = SNodeList.length .nil ∧
      (∀ k v dv, (k, v) ∈ [("Bad", Val.table (.fcons "_type" (.vstr "Vector3")
            (.fcons "X" (.vstr "oops") .fnil))),
          ("Good", Val.vnum 5)] →
        ¬(envConsistent.isA "Part" "MeshPart" = true ∧ k = "MeshId") →
        deserializeProperty envConsistent v = .ok dv →
        envConsistent.writeOk "Part" k dv = true →
        i.getProp k = some dv) ∧
      (∀ k v, (k, v) ∈ [("Bad", Val.table (.fcons "_type" (.vstr "Vector3")
            (.fcons "X" (.vstr "oops") .fnil))),
          ("Good", Val.vnum 5)] →
        (∀ dv, deserializeProperty envConsistent v = .ok dv →
          envConsistent.writeOk "Part" k dv = false) →
        i.getProp k = (Inst.mk "Part" "Q" [] .nil true).getProp k)) :=
  ⟨rfl, rfl, by simp [NodupKeys],
    claim6_attribute_failure_isolation envConsistent _ _ rfl rfl
      (by simp [NodupKeys, SNode.properties])⟩

/-! ## Mesh-backed construction (C9) -/

/-- Filtering the `MeshId` key out of the wire map does not change the
general write loop on an object that `IsA "MeshPart"`: the loop skips that
key anyway. -/
theorem writePropsSkip_filter_meshId (env : Env) (ps : List (String × Val)) :
    ∀ st : Inst, env.isA st.className "MeshPart" = true →
      writePropsSkip env st (ps.filter (fun p => !(p.1 == "MeshId"))) =
        writePropsSkip env st ps := by
  induction ps with
  | nil => intro st _; rfl
  | cons p rest ih =>
    intro st hm
    by_cases hp : p.1 = "MeshId"
    · rw [List.filter_cons, if_neg (by simp [hp])]
      have hstep : writeStepSkip env st p = st := by
        rw [writeStepSkip, if_pos ⟨hm, hp⟩]
      show _ = writePropsSkip env (writeStepSkip env st p) rest
      rw [hstep]
      exact ih st hm
    · rw [List.filter_cons, if_pos (by simp [hp])]
      show writePropsSkip env (writeStepSkip env st p)
          (rest.filter (fun p => !(p.1 == "MeshId"))) =
        writePropsSkip env (writeStepSkip env st p) rest
      exact ih (writeStepSkip env st p)
        ((writeStep_className (writeLike_skip env) st p).symm ▸ hm)

/-- C9.  On a `MeshPart` node with a usable mesh identity: construction
goes through the mesh importer when it succeeds, and falls back to
`Instance.new "MeshPart"` when it fails; in both cases deserialization
completes, the resulting object's `MeshId` comes from the constructed
object (importer result or default), and the `MeshId` key of `Properties`
is skipped by the attribute loop, so dropping it from the wire map changes
nothing. -/
theorem claim9_mesh_construction (env : Env) (n s : String)
    (props : List (String × Val)) (ch : SNodeList) (dps : List (String × Val))
    (hs : s ≠ "")
    (hIsA : env.isA "MeshPart" "MeshPart" = true)
    (hni : env.newInstance "MeshPart" = some dps)
    (hch : creatableForest env ch = true) :
    deserializeInstance env (.mk "MeshPart" n props ch (some s)) =
      deserializeInstance env (.mk "MeshPart" n
        (props.filter (fun p => !(p.1 == "MeshId"))) ch (some s)) ∧
    (∀ mps, env.createMeshPart s = some mps →
      ∃ i, deserializeInstance env (.mk "MeshPart" n props ch (some s)) = .ok i ∧
        i.className = "MeshPart" ∧ i.name = n ∧
        i.getProp "MeshId" = lookupA mps "MeshId") ∧
    (env.createMeshPart s = none →
      ∃ i, deserializeInstance env (.mk "MeshPart" n props ch (some s)) = .ok i ∧
        i.className = "MeshPart" ∧ i.name = n ∧
        i.getProp "MeshId" = lookupA dps "MeshId") := by
  obtain ⟨cs, hcs, _⟩ := deserializeForest_ok env ch hch
  cases hcm : env.createMeshPart s with
  | some mps =>
    have hcb : ∀ qs : List (String × Val),
        constructBase env (SNode.mk "MeshPart" n qs ch (some s)) =
          .ok (.mk "MeshPart" n mps .nil true) := by
      intro qs
      simp only [constructBase]
      simp [hcm, hs]
    refine ⟨?_, ?_, ?_⟩
    · rw [deserializeInstance, deserializeInstance, hcb, hcb]
      show (deserializeForest env ch).bind _ = (deserializeForest env ch).bind _
      rw [hcs]
      show Except.ok ((writePropsSkip env (.mk "MeshPart" n mps .nil true)
          props).appendChildren cs) =
        Except.ok ((writePropsSkip env (.mk "MeshPart" n mps .nil true)
          (props.filter (fun p => !(p.1 == "MeshId")))).appendChildren cs)
      rw [writePropsSkip_filter_meshId env props (.mk "MeshPart" n mps .nil true) hIsA]
    · intro mps' hmx
      have : mps = mps' := Option.some_injective _ hmx
      subst this
      refine ⟨(writePropsSkip env (.mk "MeshPart" n mps .nil true) props).appendChildren cs,
        ?_, ?_, ?_, ?_⟩
      · rw [deserializeInstance, hcb]
        show (deserializeForest env ch).bind _ = _
        rw [hcs]
        rfl
      · rw [appendChildren_className, writePropsSkip_className]
        rfl
      · rw [appendChildren_name, writePropsSkip_name]
        rfl
      · rw [appendChildren_getProp]
        exact writePropsSkip_meshId env props (.mk "MeshPart" n mps .nil true) hIsA
    · intro hmx
      exact nomatch hmx
  | none =>
    have hcb : ∀ qs : List (String × Val),
        constructBase env (SNode.mk "MeshPart" n qs ch (some s)) =
          .ok (.mk "MeshPart" n dps .nil true) := by
      intro qs
      simp only [constructBase]
      simp [hcm, hs, hni]
    refine ⟨?_, ?_, ?_⟩
    · rw [deserializeInstance, deserializeInstance, hcb, hcb]
      show (deserializeForest env ch).bind _ = (deserializeForest env ch).bind _
      rw [hcs]
      show Except.ok ((writePropsSkip env (.mk "MeshPart" n dps .nil true)
          props).appendChildren cs) =
        Except.ok ((writePropsSkip env (.mk "MeshPart" n dps .nil true)
          (props.filter (fun p => !(p.1 == "MeshId")))).appendChildren cs)
      rw [writePropsSkip_filter_meshId env props (.mk "MeshPart" n dps .nil true) hIsA]
    · intro mps' hmx
      exact nomatch hmx
    · intro _
      refine ⟨(writePropsSkip env (.mk "MeshPart" n dps .nil true) props).appendChildren cs,
        ?_, ?_, ?_, ?_⟩
      · rw [deserializeInstance, hcb]
        show (deserializeForest env ch).bind _ = _
        rw [hcs]
        rfl
      · rw [appendChildren_className, writePropsSkip_className]
        rfl
      · rw [appendChildren_name, writePropsSkip_name]
        rfl
      · rw [appendChildren_getProp]
        exact writePropsSkip_meshId env props (.mk "MeshPart" n dps .nil true) hIsA

/-- A host whose `IsA` is class-name equality and whose mesh importer
returns a mesh carrying the requested identity. -/
def cenvMesh : Env :=
  { apiClasses := []
    isA := fun c t => c == t
    enumLookup := fun t n => some (.enum t n)
    newInstance := fun _ => some []
    createMeshPart := fun s => some [("MeshId", .vstr s)]
    writeOk := fun _ _ _ => true }

theorem claim9_mesh_construction_witness :
    ("rbxassetid://123" : String) ≠ "" ∧
    cenvMesh.isA "MeshPart" "MeshPart" = true ∧
    cenvMesh.newInstance "MeshPart" = some [] ∧
    creatableForest cenvMesh .nil = true ∧
    (deserializeInstance cenvMesh (.mk "MeshPart" "M"
        [("MeshId", .vstr "rbxassetid://123")] .nil (some "rbxassetid://123")) =
      deserializeInstance cenvMesh (.mk "MeshPart" "M"
        ([("MeshId", Val.vstr "rbxassetid://123")].filter
          (fun p => !(p.1 == "MeshId"))) .nil (some "rbxassetid://123")) ∧
    (∀ mps, cenvMesh.createMeshPart "rbxassetid://123" = some mps →
      ∃ i, deserializeInstance cenvMesh (.mk "MeshPart" "M"
          [("MeshId", .vstr "rbxassetid://123")] .nil (some "rbxassetid://123")) = .ok i ∧
        i.className = "MeshPart" ∧ i.name = "M" ∧
        i.getProp "MeshId" = lookupA mps "MeshId") ∧
    (cenvMesh.createMeshPart "rbxassetid://123" = none →
      ∃ i, deserializeInstance cenvMesh (.mk "MeshPart" "M"
          [("MeshId", .vstr "rbxassetid://123")] .nil (some "rbxassetid://123")) = .ok i ∧
        i.className = "MeshPart" ∧ i.name = "M" ∧
        i.getProp "MeshId" = lookupA [] "MeshId")) :=
  ⟨by decide, rfl, rfl, rfl,
    claim9_mesh_construction cenvMesh "M" "rbxassetid://123"
      [("MeshId", .vstr "rbxassetid://123")] .nil [] (by decide) rfl rfl rfl⟩

end Serializer
